import Mathlib

/-!
Shallow embedding of the allocation-crawler-service coordination core
(`src/lib/entities.ts`): a Redis-backed entity store for Boards, Jobs,
Users and JobRuns, together with the lock-protected application
coordinator.  The Redis keyspace is modelled as a record of association
lists; hashes become structures, Redis sets become duplicate-free lists,
and the conditional SET NX EX lock primitive becomes an explicit check
against a stored expiry time, with the current time passed into each
operation as a natural number.  The external tag classifier
(`extractTags`, not part of the repository core) is a parameter of the
job-creating operations.
-/

namespace Crawler


/-- Association-list lookup: first binding wins, mirroring a key-value
hash lookup. -/
def aget {K V : Type} [DecidableEq K] : List (K × V) → K → Option V
  | [], _ => none
  | (k', v) :: rest, k => if k' = k then some v else aget rest k

/-- Association-list write: overwrite the first binding for the key, or
append a fresh binding. -/
def aset {K V : Type} [DecidableEq K] : List (K × V) → K → V → List (K × V)
  | [], k, v => [(k, v)]
  | (k', v') :: rest, k, v =>
    if k' = k then (k, v) :: rest else (k', v') :: aset rest k v

/-- Association-list delete: remove every binding for the key. -/
def adel {K V : Type} [DecidableEq K] (l : List (K × V)) (k : K) : List (K × V) :=
  l.filter (fun p => decide (p.1 ≠ k))

/-- Redis SADD on a set modelled as a list: no-op when already present. -/
def sadd {A : Type} [DecidableEq A] (l : List A) (x : A) : List A :=
  if x ∈ l then l else l ++ [x]

/-- Redis SREM: drop every occurrence of the element. -/
def srem {A : Type} [DecidableEq A] (l : List A) (x : A) : List A :=
  l.filter (fun y => decide (y ≠ x))

/-- A family of Redis sets addressed by a string key (for example the
per-status job indexes); an absent key reads as the empty set. -/
def sidxGet (m : List (String × List String)) (k : String) : List String :=
  (aget m k).getD []

/-- SADD into the set stored under key `k` of a set family. -/
def sidxAdd (m : List (String × List String)) (k : String) (x : String) :
    List (String × List String) :=
  aset m k (sadd (sidxGet m k) x)

/-- SREM from the set stored under key `k` of a set family. -/
def sidxRem (m : List (String × List String)) (k : String) (x : String) :
    List (String × List String) :=
  aset m k (srem (sidxGet m k) x)

/-- Board hash record (`board:{id}`). -/
structure BoardHash where
  id : String
  company : String
  ats : String
  created_at : Nat
deriving Repr, DecidableEq

/-- Job hash record (`job:{board}:{job_id}`).  The source stores `tags`
comma-joined and splits on read; we keep the parsed list, which matches
the stored string for comma-free tags.  Timestamps are naturals standing
for the ISO strings the source writes. -/
structure JobHash where
  job_id : String
  board : String
  title : String
  url : String
  location : String
  department : String
  tags : List String
  status : String
  discovered_at : Nat
  updated_at : Nat
deriving Repr, DecidableEq

/-- Parsed form of a run's `artifacts` JSON object: scalar properties as
an association list plus the distinguished nested `answers` sub-map. -/
structure RunArtifacts where
  fields : List (String × String) := []
  answers : Option (List (String × String)) := none
deriving Repr, DecidableEq

/-- Run hash record (`run:{run_id}`).  `completed_at` is `none` while the
source stores the empty string; `artifacts = none` models the literal
JSON `null` the source writes for a run created without artifacts. -/
structure RunHash where
  run_id : String
  job_id : String
  board : String
  variant_id : String
  status : String
  started_at : Nat
  completed_at : Option Nat
  error : String
  artifacts : Option RunArtifacts
deriving Repr, DecidableEq

/-- User hash record (`user:{id}`), with the JSON-encoded fields parsed. -/
structure UserHash where
  id : String
  resumes : List String
  answers : List (String × String)
  tags : List String
  updated_at : Nat
deriving Repr, DecidableEq

/-- Apply-lock value: the claiming run id and the absolute expiry time
produced by SET ... EX. -/
structure LockVal where
  run_id : String
  expiresAt : Nat
deriving Repr, DecidableEq

/-- The whole Redis keyspace used by the service, one field per key
family of the `K` helper in the source. -/
structure Store where
  boards : List (String × BoardHash) := []
  boardsIdx : List String := []
  jobs : List ((String × String) × JobHash) := []
  boardJobsIdx : List (String × List String) := []
  statusIdx : List (String × List String) := []
  tagIdx : List (String × List String) := []
  runs : List (String × RunHash) := []
  jobRunsIdx : List (String × List String) := []
  runsAll : List String := []
  locks : List (String × LockVal) := []
  users : List (String × UserHash) := []
  usersIdx : List String := []
deriving Repr, DecidableEq

def emptyStore : Store := {}

/-- Composite key `board:job_id` used as the member of status and tag
index sets. -/
def ckey (board jobId : String) : String := board ++ ":" ++ jobId

/-- A string with no ':' character; composite keys built from colon-free
job ids decompose uniquely. -/
def colonFree (s : String) : Bool := s.data.all (fun c => decide (c ≠ ':'))

/-- `ck.split(":")` destructuring from the source: the first two
segments are taken as board and job id. -/
def splitCk (ck : String) : String × String :=
  match ck.splitOn ":" with
  | b :: j :: _ => (b, j)
  | _ => (ck, "")

/-- JavaScript truthiness of an optional string filter: `undefined` and
the empty string both mean "no filter". -/
def norm : Option String → Option String
  | some "" => none
  | x => x

/-! Operation inputs -/
/-- Input shape of a single job (board validation happens at the HTTP
boundary; missing optional fields arrive as the empty string). -/
structure JobInput where
  job_id : String
  board : String
  title : String := ""
  url : String := ""
  location : String := ""
  department : String := ""
deriving Repr, DecidableEq

/-- Input shape of `createRun`: the four required identifiers. -/
structure RunInput where
  run_id : String
  job_id : String
  board : String
  variant_id : String
deriving Repr, DecidableEq

/-- Input shape of `updateRun`. -/
structure RunUpdate where
  status : String
  error : Option String := none
  artifacts : Option RunArtifacts := none
deriving Repr, DecidableEq

/-- The external tag classifier: title and department to tag list. -/
abbrev Classifier := String → String → List String

/-! Boards -/
/-- `addBoard`: write the board hash and index it, overwriting any
previous record. -/
def addBoard (s : Store) (t : Nat) (id company ats : String) : Store × BoardHash :=
  let b : BoardHash := { id := id, company := company, ats := ats, created_at := t }
  ({ s with boards := aset s.boards id b, boardsIdx := sadd s.boardsIdx id }, b)

/-- One iteration of the `removeBoard` job loop.  The source reads every
job hash before the deferred pipeline executes, so reads go against the
original store `s` while the accumulated writes thread through `acc`. -/
def removeBoardStep (s : Store) (id : String) (acc : Store) (jobId : String) : Store :=
  match aget s.jobs (id, jobId) with
  | none => { acc with jobs := adel acc.jobs (id, jobId) }
  | some d =>
    let ck := ckey id jobId
    let si := if d.status ≠ "" then sidxRem acc.statusIdx d.status ck else acc.statusIdx
    let ti := if d.tags ≠ [] then d.tags.foldl (fun a tg => sidxRem a tg ck) acc.tagIdx
              else acc.tagIdx
    { acc with statusIdx := si, tagIdx := ti, jobs := adel acc.jobs (id, jobId) }

/-- `removeBoard`: not-found when the board hash is absent; otherwise
de-index and delete every job listed in the board's job index, then the
job index set, the board hash and the boards-index membership. -/
def removeBoard (s : Store) (id : String) : Store × Bool :=
  if (aget s.boards id).isNone then (s, false)
  else
    let jobIds := sidxGet s.boardJobsIdx id
    let s1 := jobIds.foldl (removeBoardStep s id) s
    ({ s1 with boardJobsIdx := adel s1.boardJobsIdx id,
               boards := adel s1.boards id,
               boardsIdx := srem s1.boardsIdx id }, true)

/-! Jobs -/
/-- The full job hash written by `addJob`/`addJobsBulk`: classifier tags,
status `discovered`, both timestamps stamped now. -/
def mkFullJob (t : Nat) (xt : Classifier) (j : JobInput) : JobHash :=
  { job_id := j.job_id, board := j.board, title := j.title, url := j.url,
    location := j.location, department := j.department,
    tags := xt j.title j.department, status := "discovered",
    discovered_at := t, updated_at := t }

/-- The shared write block of `addJob` and `addJobsBulk`: job hash plus
board-jobs, `discovered`-status and per-tag index memberships. -/
def writeJob (s : Store) (t : Nat) (xt : Classifier) (j : JobInput) : Store :=
  let full := mkFullJob t xt j
  let ck := ckey j.board j.job_id
  { s with jobs := aset s.jobs (j.board, j.job_id) full,
           boardJobsIdx := sidxAdd s.boardJobsIdx j.board j.job_id,
           statusIdx := sidxAdd s.statusIdx "discovered" ck,
           tagIdx := full.tags.foldl (fun ti tg => sidxAdd ti tg ck) s.tagIdx }

/-- `addJob`: unconditional insert (no existence check). -/
def addJob (s : Store) (t : Nat) (xt : Classifier) (j : JobInput) : Store × JobHash :=
  (writeJob s t xt j, mkFullJob t xt j)

/-- Sequential insertion of the filtered job list of `addJobsBulk`,
collecting the inserted hashes in input order. -/
def bulkInsert (t : Nat) (xt : Classifier) : Store → List JobInput → Store × List JobHash
  | s, [] => (s, [])
  | s, j :: rest =>
    let s1 := writeJob s t xt j
    let (s2, res) := bulkInsert t xt s1 rest
    (s2, mkFullJob t xt j :: res)

/-- `addJobsBulk`: existence is checked for every input against the
store as it was before any write; already-present jobs are skipped and
only the genuinely new ones are inserted and returned. -/
def addJobsBulk (s : Store) (t : Nat) (xt : Classifier) (js : List JobInput) :
    Store × List JobHash :=
  bulkInsert t xt s (js.filter (fun j => (aget s.jobs (j.board, j.job_id)).isNone))

/-- `removeJob`: not-found when absent; otherwise drop the composite key
from the status set named by the hash and from every tag set named by
the hash, drop the board-index membership, delete the hash. -/
def removeJob (s : Store) (board jobId : String) : Store × Bool :=
  match aget s.jobs (board, jobId) with
  | none => (s, false)
  | some d =>
    let ck := ckey board jobId
    let si := if d.status ≠ "" then sidxRem s.statusIdx d.status ck else s.statusIdx
    let ti := if d.tags ≠ [] then d.tags.foldl (fun a tg => sidxRem a tg ck) s.tagIdx
              else s.tagIdx
    ({ s with statusIdx := si, tagIdx := ti,
              boardJobsIdx := sidxRem s.boardJobsIdx board jobId,
              jobs := adel s.jobs (board, jobId) }, true)

/-- `updateJobStatus`: not-found when absent; otherwise rewrite the hash
status and `updated_at`, move the composite key from the old status set
to the new one, and return the updated record. -/
def updateJobStatus (s : Store) (t : Nat) (board jobId newStatus : String) :
    Store × Option JobHash :=
  match aget s.jobs (board, jobId) with
  | none => (s, none)
  | some data =>
    let ck := ckey board jobId
    let nh := { data with status := newStatus, updated_at := t }
    let si := if data.status ≠ "" then sidxRem s.statusIdx data.status ck else s.statusIdx
    ({ s with jobs := aset s.jobs (board, jobId) nh,
              statusIdx := sidxAdd si newStatus ck }, some nh)

/-- `getJob`: the hash, already in parsed form. -/
def getJob (s : Store) (board jobId : String) : Option JobHash :=
  aget s.jobs (board, jobId)

/-- Hydrate a list of composite keys, silently dropping keys whose job
hash has vanished. -/
def hydrateJobs (s : Store) (cks : List String) : List JobHash :=
  cks.foldr (fun ck acc =>
    match aget s.jobs (splitCk ck) with
    | some d => d :: acc
    | none => acc) []

/-- Optional filters of `listJobs`. -/
structure JobFilter where
  board : Option String := none
  status : Option String := none
  tag : Option String := none
deriving Repr, DecidableEq

/-- `listJobs`: the index-set composition of the source, branch by
branch — all-boards scan, board-only (re-prefixing bare ids), board plus
other filters (intersection filtered by the board's composite keys), a
single non-board set, or the status/tag intersection. -/
def listJobs (s : Store) (o : JobFilter) : List JobHash :=
  let cks :=
    match norm o.board, norm o.status, norm o.tag with
    | none, none, none =>
      s.boardsIdx.foldl
        (fun acc bid => acc ++ (sidxGet s.boardJobsIdx bid).map (fun jid => ckey bid jid)) []
    | some b, none, none => (sidxGet s.boardJobsIdx b).map (fun jid => ckey b jid)
    | some b, some st, none =>
      let bset := (sidxGet s.boardJobsIdx b).map (fun jid => ckey b jid)
      (sidxGet s.statusIdx st).filter (fun ck => bset.contains ck)
    | some b, none, some tg =>
      let bset := (sidxGet s.boardJobsIdx b).map (fun jid => ckey b jid)
      (sidxGet s.tagIdx tg).filter (fun ck => bset.contains ck)
    | some b, some st, some tg =>
      let bset := (sidxGet s.boardJobsIdx b).map (fun jid => ckey b jid)
      let inter := (sidxGet s.statusIdx st).filter (fun ck => (sidxGet s.tagIdx tg).contains ck)
      inter.filter (fun ck => bset.contains ck)
    | none, some st, none => sidxGet s.statusIdx st
    | none, none, some tg => sidxGet s.tagIdx tg
    | none, some st, some tg =>
      (sidxGet s.statusIdx st).filter (fun ck => (sidxGet s.tagIdx tg).contains ck)
  hydrateJobs s cks

/-! Users -/
/-- `upsertUser`: overwrite the user hash and index the id. -/
def upsertUser (s : Store) (t : Nat) (id : String) (resumes : List String)
    (answers : List (String × String)) (tags : List String) : Store × UserHash :=
  let u : UserHash := { id := id, resumes := resumes, answers := answers,
                        tags := tags, updated_at := t }
  ({ s with users := aset s.users id u, usersIdx := sadd s.usersIdx id }, u)

/-- `getUser`: the hash, already in parsed form. -/
def getUser (s : Store) (id : String) : Option UserHash :=
  aget s.users id

/-- Union of a family of sets, deduplicated like Redis SUNION. -/
def sunion (ls : List (List String)) : List String :=
  ls.foldl (fun acc l => l.foldl (fun a x => sadd a x) acc) []

/-- `listJobsForUser`: empty when the user is absent or has no interest
tags; otherwise the union of the user's tag sets, intersected with the
requested (default `discovered`) status set, optionally restricted to a
board by composite-key prefix, hydrated. -/
def listJobsForUser (s : Store) (userId : String)
    (boardOpt statusOpt : Option String) : List JobHash :=
  match getUser s userId with
  | none => []
  | some u =>
    if u.tags = [] then []
    else
      let status := match norm statusOpt with | some st => st | none => "discovered"
      let candidateKeys :=
        match u.tags with
        | [t1] => sidxGet s.tagIdx t1
        | ts => sunion (ts.map (fun tg => sidxGet s.tagIdx tg))
      let statusSet := sidxGet s.statusIdx status
      let filtered := candidateKeys.filter (fun ck => statusSet.contains ck)
      let filtered2 :=
        match norm boardOpt with
        | some b => filtered.filter (fun ck => ck.startsWith (b ++ ":"))
        | none => filtered
      hydrateJobs s filtered2

/-! Application coordinator -/
/-- `LOCK_TTL_SECONDS` from the source: auto-expiry of the apply lock. -/
def LOCK_TTL_SECONDS : Nat := 300

/-- `APPLICABLE_STATUSES` membership: only discovered or queued jobs can
be claimed. -/
def applicableStatus (st : String) : Bool :=
  st == "discovered" || st == "queued"

/-- Whether the lock key currently exists: present and not yet past its
expiry (an expired key reads as absent, as in Redis). -/
def lockLive (s : Store) (lk : String) (t : Nat) : Bool :=
  match aget s.locks lk with
  | some lv => decide (t < lv.expiresAt)
  | none => false

/-- Result of `createRun`: the created run, or an error with its
distinguishing numeric code. -/
inductive CRes where
  | ok (run : RunHash)
  | err (code : Nat) (msg : String)
deriving Repr, DecidableEq

/-- `createRun`: conditional-set of the apply lock (409 on conflict),
then job existence (404, releasing the lock) and status checks (400,
releasing the lock), then the pending run hash plus its two index
memberships, then the discovered-to-queued job transition. -/
def createRun (s : Store) (t : Nat) (rn : RunInput) (arts : Option RunArtifacts) :
    Store × CRes :=
  let lk := ckey rn.board rn.job_id
  if lockLive s lk t then
    (s, .err 409 "Job already has an active application in progress")
  else
    let s1 := { s with locks := aset s.locks lk ⟨rn.run_id, t + LOCK_TTL_SECONDS⟩ }
    match getJob s1 rn.board rn.job_id with
    | none => ({ s1 with locks := adel s1.locks lk }, .err 404 "Job not found")
    | some job =>
      if !applicableStatus job.status then
        ({ s1 with locks := adel s1.locks lk },
         .err 400 ("Job is in '" ++ job.status ++
           "' status - only discovered/queued jobs can be applied to"))
      else
        let full : RunHash :=
          { run_id := rn.run_id, job_id := rn.job_id, board := rn.board,
            variant_id := rn.variant_id, status := "pending", started_at := t,
            completed_at := none, error := "", artifacts := arts }
        let s2 := { s1 with runs := aset s1.runs rn.run_id full,
                            jobRunsIdx := sidxAdd s1.jobRunsIdx rn.job_id rn.run_id,
                            runsAll := sadd s1.runsAll rn.run_id }
        let s3 := if job.status == "discovered" then
                    (updateJobStatus s2 t rn.board rn.job_id "queued").1
                  else s2
        (s3, .ok full)

/-- Hydrate a list of run ids, dropping vanished hashes. -/
def hydrateRuns (s : Store) (rids : List String) : List RunHash :=
  rids.foldr (fun rid acc =>
    match aget s.runs rid with
    | some h => h :: acc
    | none => acc) []

/-- `listRuns`: hydrate the per-job run index (the global index when the
job id is missing or empty), dropping vanished hashes. -/
def listRuns (s : Store) (jobId : Option String) : List RunHash :=
  hydrateRuns s
    (match jobId with
     | some j => if j = "" then s.runsAll else sidxGet s.jobRunsIdx j
     | none => s.runsAll)

/-- `status ∈ {success, failed}`: the terminal run statuses that stamp
`completed_at`. -/
def terminalStatus (st : String) : Bool :=
  st == "success" || st == "failed"

/-- The object spread `{...existing, ...update}` on two artifact
records, followed by the source's key-wise patch of `answers` when both
sides carry one.  Properties present on the update win; an `answers`
present on both sides is merged key-wise instead of replaced. -/
def amerge (a b : List (String × String)) : List (String × String) :=
  a.map (fun p => (p.1, ((aget b p.1).getD p.2))) ++
    b.filter (fun p => decide ((aget a p.1) = none))

/-- Field-wise artifact merge of `updateRun`. -/
def spreadArts (e u : RunArtifacts) : RunArtifacts :=
  let base : RunArtifacts :=
    { fields := amerge e.fields u.fields,
      answers := match u.answers with | some a => some a | none => e.answers }
  match u.answers, e.answers with
  | some ua, some ea => { base with answers := some (amerge ea ua) }
  | _, _ => base

/-- Result of `updateRun`: the updated run, not-found, or the TypeError
the source raises when an `answers` update meets artifacts stored as
JSON `null`. -/
inductive URes where
  | ok (run : RunHash)
  | notFound
  | crash
deriving Repr, DecidableEq

/-- The sibling-activity test of the failed branch: some run of the job
other than the one being updated is still pending or submitted. -/
def hasActiveSibling (s : Store) (runId jobId : String) : Bool :=
  (listRuns s (some jobId)).any (fun sr =>
    sr.run_id != runId && (sr.status == "pending" || sr.status == "submitted"))

/-- `updateRun`: rewrite the run hash (status, conditional
`completed_at`, truthy `error`, merged artifacts), then the job-level
side effects keyed by the new status — `success` sets the job to
`applied` and deletes the lock; `failed` reverts the job to `discovered`
unless a sibling run is still active and deletes the lock
unconditionally; any other status touches neither. -/
def updateRun (s : Store) (t : Nat) (runId : String) (u : RunUpdate) : Store × URes :=
  match aget s.runs runId with
  | none => (s, .notFound)
  | some data =>
    let artsRes : Option (Option RunArtifacts) :=
      match u.artifacts with
      | none => some data.artifacts
      | some ua =>
        match data.artifacts with
        | none => if ua.answers.isSome then none else some (some ua)
        | some e => some (some (spreadArts e ua))
    match artsRes with
    | none => (s, .crash)
    | some newArts =>
      let nh : RunHash :=
        { data with
          status := u.status,
          completed_at := if terminalStatus u.status then some t else data.completed_at,
          error := match u.error with
                   | some e => if e ≠ "" then e else data.error
                   | none => data.error,
          artifacts := newArts }
      let s1 := { s with runs := aset s.runs runId nh }
      let lk := ckey data.board data.job_id
      let s2 :=
        if u.status == "success" then
          let sA := (updateJobStatus s1 t data.board data.job_id "applied").1
          { sA with locks := adel sA.locks lk }
        else if u.status == "failed" then
          let sB := if hasActiveSibling s1 runId data.job_id then s1
                    else (updateJobStatus s1 t data.board data.job_id "discovered").1
          { sB with locks := adel sB.locks lk }
        else s1
      match aget s2.runs runId with
      | some final => (s2, .ok final)
      | none => (s2, .notFound)

/-! Operation traces.  The six store-mutating operations named by the
status-index invariant, as a syntactic trace replayed from a store. -/
/-- One mutating operation, carrying the wall-clock instant at which it
runs. -/
inductive Op where
  | addJob (t : Nat) (j : JobInput)
  | addJobsBulk (t : Nat) (js : List JobInput)
  | updateJobStatus (t : Nat) (board jobId st : String)
  | removeJob (board jobId : String)
  | createRun (t : Nat) (rn : RunInput) (arts : Option RunArtifacts)
  | updateRun (t : Nat) (runId : String) (u : RunUpdate)
deriving Repr, DecidableEq

/-- Replay one operation, keeping only the store. -/
def applyOp (xt : Classifier) (s : Store) : Op → Store
  | .addJob t j => (addJob s t xt j).1
  | .addJobsBulk t js => (addJobsBulk s t xt js).1
  | .updateJobStatus t b j st => (updateJobStatus s t b j st).1
  | .removeJob b j => (removeJob s b j).1
  | .createRun t rn arts => (createRun s t rn arts).1
  | .updateRun t rid u => (updateRun s t rid u).1

/-- Replay a trace of operations in order. -/
def runOps (xt : Classifier) (s : Store) : List Op → Store
  | [] => s
  | op :: rest => runOps xt (applyOp xt s op) rest

/-- The six valid job statuses of the `Job["status"]` type. -/
def validJobStatus (st : String) : Bool :=
  st == "discovered" || st == "queued" || st == "applied" ||
    st == "found" || st == "rejected" || st == "expired"

/-- Side conditions under which a trace is replayed for the status-index
invariant: `addJob` only on a not-yet-present colon-free key (the
source's bulk path deliberately skips existing ids, and the single-add
path re-adding an existing job is the stale-index counterexample),
colon-free ids for bulk inserts, and job statuses drawn from the TS
enum. -/
def okOp (s : Store) : Op → Bool
  | .addJob _ j => (aget s.jobs (j.board, j.job_id)) = none && colonFree j.job_id
  | .addJobsBulk _ js => js.all (fun j => colonFree j.job_id)
  | .updateJobStatus _ _ _ st => validJobStatus st
  | _ => true

/-- A trace all of whose operations satisfy `okOp` at the state they run
in. -/
def goodOps (xt : Classifier) (s : Store) : List Op → Bool
  | [] => true
  | op :: rest => okOp s op && goodOps xt (applyOp xt s op) rest

/-! `updateRun` characterization under the crash-free condition. -/
/-- The only uncaught exception path of `updateRun`: an `answers` update
against artifacts stored as JSON `null`.  Everywhere else the update is
total. -/
def noCrash (d : RunHash) (u : RunUpdate) : Bool :=
  match u.artifacts with
  | none => true
  | some ua => d.artifacts.isSome || ua.answers.isNone

/-- The artifacts value `updateRun` stores, in the crash-free cases. -/
def newArtsOf (d : RunHash) (u : RunUpdate) : Option RunArtifacts :=
  match u.artifacts with
  | none => d.artifacts
  | some ua =>
    match d.artifacts with
    | none => some ua
    | some e => some (spreadArts e ua)

/-- The run hash `updateRun` writes back. -/
def updatedHash (t : Nat) (d : RunHash) (u : RunUpdate) : RunHash :=
  { d with
    status := u.status,
    completed_at := if terminalStatus u.status then some t else d.completed_at,
    error := match u.error with
             | some e => if e ≠ "" then e else d.error
             | none => d.error,
    artifacts := newArtsOf d u }

/-! C6 concrete scenario stores (the spec's artifact-merge chain). -/
def c6run : RunHash :=
  { run_id := "r1", job_id := "j", board := "b", variant_id := "v",
    status := "pending", started_at := 0, completed_at := none, error := "",
    artifacts := some { fields := [("resume_url", "a")], answers := none } }

def c6s0 : Store := { runs := [("r1", c6run)] }

def c6s1 : Store :=
  (updateRun c6s0 1 "r1"
    { status := "pending", error := none,
      artifacts := some { fields := [("notes", "b")], answers := none } }).1

def c6s2 : Store :=
  (updateRun c6s1 2 "r1"
    { status := "pending", error := none,
      artifacts := some { fields := [], answers := some [("x", "1")] } }).1

def c6s3 : Store :=
  (updateRun c6s2 3 "r1"
    { status := "pending", error := none,
      artifacts := some { fields := [], answers := some [("y", "2")] } }).1

/-! C9 concrete trace: a run driven to `success` through the public
operations and then moved back to `pending` by a further `updateRun`. -/
def c9jobh : JobHash :=
  { job_id := "1", board := "b", title := "", url := "", location := "",
    department := "", tags := [], status := "discovered",
    discovered_at := 0, updated_at := 0 }

def c9s0 : Store := { jobs := [(("b", "1"), c9jobh)] }

def c9s1 : Store :=
  (createRun c9s0 0 { run_id := "r1", job_id := "1", board := "b", variant_id := "v" }
    none).1

def c9s2 : Store := (updateRun c9s1 1 "r1" { status := "success" }).1

/-! Status-index invariant. -/
/-- The claimed property: every job's composite key sits in the status
index set matching its hash status and in no other status set. -/
def statusConsistent (s : Store) : Prop :=
  ∀ b j h, aget s.jobs (b, j) = some h →
    ckey b j ∈ sidxGet s.statusIdx h.status ∧
    ∀ st, st ≠ h.status → ckey b j ∉ sidxGet s.statusIdx st

/-- Soundness of the status index: every member points at an existing
job whose hash carries that status. -/
def statusIdxSound (s : Store) : Prop :=
  ∀ st ck, ck ∈ sidxGet s.statusIdx st →
    ∃ b j h, ck = ckey b j ∧ aget s.jobs (b, j) = some h ∧ h.status = st

/-- Completeness: every job is indexed under its own status. -/
def statusComplete (s : Store) : Prop :=
  ∀ b j h, aget s.jobs (b, j) = some h → ckey b j ∈ sidxGet s.statusIdx h.status

/-- Structural side conditions maintained by the operations: stored job
ids are colon-free and statuses nonempty. -/
def jobsKeysOk (s : Store) : Prop :=
  ∀ b j h, aget s.jobs (b, j) = some h → colonFree j = true ∧ h.status ≠ ""

/-- The inductive invariant of the replayed traces. -/
def Inv (s : Store) : Prop := jobsKeysOk s ∧ statusIdxSound s ∧ statusComplete s

/-! C5 concrete trace: re-adding an existing job leaves a stale
status-index entry. -/
def c5inp : JobInput := { job_id := "1", board := "b" }

def c5xt : Classifier := fun _ _ => []

def c5ops : List Op :=
  [.addJob 0 c5inp, .updateJobStatus 1 "b" "1" "queued", .addJob 2 c5inp]

/-- Soundness of the tag index: every member points at an existing job
carrying that tag. -/
def tagIdxSound (s : Store) : Prop :=
  ∀ tg ck, ck ∈ sidxGet s.tagIdx tg →
    ∃ b j h, ck = ckey b j ∧ aget s.jobs (b, j) = some h ∧ tg ∈ h.tags

/-- Every stored job id is listed in its board's job index. -/
def boardIdxComplete (s : Store) : Prop :=
  ∀ b j h, aget s.jobs (b, j) = some h → j ∈ sidxGet s.boardJobsIdx b

/-- Index consistency as maintained by the operations, used as the
precondition of the cascade-delete theorem. -/
def WF (s : Store) : Prop :=
  jobsKeysOk s ∧ statusIdxSound s ∧ tagIdxSound s ∧ boardIdxComplete s

/-! Concrete stores for witnesses and counterexamples. -/
def c7xt : Classifier := fun _ _ => ["quant"]

def c7cs0 : Store := (addBoard emptyStore 0 "b" "B" "x").1

def c7cs1 : Store := (addJob c7cs0 1 c7xt { job_id := "1", board := "b" }).1

def c7cs2 : Store :=
  (createRun c7cs1 2 { run_id := "r1", job_id := "1", board := "b", variant_id := "v" }
    none).1

def c7wJob : JobHash :=
  { job_id := "1", board := "b", title := "T", url := "", location := "",
    department := "", tags := ["quant"], status := "discovered",
    discovered_at := 0, updated_at := 0 }

def c7wStore : Store :=
  { boards := [("b", { id := "b", company := "B", ats := "x", created_at := 0 })],
    boardsIdx := ["b"],
    jobs := [(("b", "1"), c7wJob)],
    boardJobsIdx := [("b", ["1"])],
    statusIdx := [("discovered", ["b:1"])],
    tagIdx := [("quant", ["b:1"])] }

def c1jobh : JobHash :=
  { job_id := "1", board := "b", title := "", url := "", location := "",
    department := "", tags := [], status := "discovered",
    discovered_at := 0, updated_at := 0 }

def c1s0 : Store := { jobs := [(("b", "1"), c1jobh)] }

def c1rn : RunInput := { run_id := "r1", job_id := "1", board := "b", variant_id := "v" }

def c1rn2 : RunInput := { run_id := "r2", job_id := "1", board := "b", variant_id := "w" }

def c1s1 : Store := (createRun c1s0 10 c1rn none).1

def c1full : RunHash :=
  { run_id := "r1", job_id := "1", board := "b", variant_id := "v",
    status := "pending", started_at := 10, completed_at := none, error := "",
    artifacts := none }

def c2rn : RunInput := { run_id := "r9", job_id := "1", board := "b", variant_id := "v" }

def c2sA : Store := { locks := [("b:1", { run_id := "rX", expiresAt := 50 })] }

def c2jobB : JobHash :=
  { job_id := "1", board := "b", title := "", url := "", location := "",
    department := "", tags := [], status := "applied",
    discovered_at := 0, updated_at := 0 }

def c2sB : Store := { jobs := [(("b", "1"), c2jobB)] }

def c3run : RunHash :=
  { run_id := "r1", job_id := "1", board := "b", variant_id := "v",
    status := "pending", started_at := 0, completed_at := none, error := "",
    artifacts := none }

def c3jobh : JobHash :=
  { job_id := "1", board := "b", title := "", url := "", location := "",
    department := "", tags := [], status := "queued",
    discovered_at := 0, updated_at := 0 }

def c3s : Store :=
  { jobs := [(("b", "1"), c3jobh)],
    runs := [("r1", c3run)],
    jobRunsIdx := [("1", ["r1"])],
    runsAll := ["r1"],
    locks := [("b:1", { run_id := "r1", expiresAt := 300 })] }

def c4jobh : JobHash :=
  { job_id := "1", board := "b", title := "", url := "", location := "",
    department := "", tags := [], status := "discovered",
    discovered_at := 0, updated_at := 0 }

def c4s : Store := { jobs := [(("b", "1"), c4jobh)] }

def c4rn : RunInput := { run_id := "r1", job_id := "1", board := "b", variant_id := "v" }

def c4full : RunHash :=
  { run_id := "r1", job_id := "1", board := "b", variant_id := "v",
    status := "pending", started_at := 7, completed_at := none, error := "",
    artifacts := none }

def c9wrun : RunHash :=
  { run_id := "r1", job_id := "1", board := "b", variant_id := "v",
    status := "pending", started_at := 0, completed_at := none, error := "",
    artifacts := none }

def c9ws : Store := { runs := [("r1", c9wrun)] }

def c10alice : UserHash :=
  { id := "alice", resumes := [], answers := [], tags := [], updated_at := 0 }

def c10s : Store := { users := [("alice", c10alice)] }

def c8jobh : JobHash :=
  { job_id := "1", board := "b", title := "Old", url := "", location := "",
    department := "", tags := ["x"], status := "applied",
    discovered_at := 0, updated_at := 0 }

def c8s : Store := { jobs := [(("b", "1"), c8jobh)] }

def c8xt : Classifier := fun _ _ => ["y"]

def c8input : List JobInput :=
  [{ job_id := "1", board := "b", title := "New" },
   { job_id := "2", board := "b", title := "N2" }]

/-! Basic lemmas about the store primitives. -/
theorem aget_aset_self {K V : Type} [DecidableEq K] (l : List (K × V)) (k : K) (v : V) :
    aget (aset l k v) k = some v := by
  induction l with
  | nil => simp [aset, aget]
  | cons p rest ih =>
    obtain ⟨k', v'⟩ := p
    by_cases h : k' = k
    · simp [aset, h, aget]
    · simp [aset, h, aget, ih]

theorem aget_aset_ne {K V : Type} [DecidableEq K] (l : List (K × V)) (k k'' : K) (v : V)
    (h : k'' ≠ k) : aget (aset l k v) k'' = aget l k'' := by
  induction l with
  | nil => simp [aset, aget, Ne.symm h]
  | cons p rest ih =>
    obtain ⟨k', v'⟩ := p
    by_cases hk : k' = k
    · simp [aset, hk, aget, Ne.symm h]
    · simp [aset, hk, aget, ih]

theorem adel_cons {K V : Type} [DecidableEq K] (k' : K) (v' : V) (rest : List (K × V))
    (k : K) :
    adel ((k', v') :: rest) k = if k' = k then adel rest k else (k', v') :: adel rest k := by
  by_cases h : k' = k
  · simp [adel, h]
  · simp [adel, h]

theorem aget_adel_self {K V : Type} [DecidableEq K] (l : List (K × V)) (k : K) :
    aget (adel l k) k = none := by
  induction l with
  | nil => simp [adel, aget]
  | cons p rest ih =>
    obtain ⟨k', v'⟩ := p
    rw [adel_cons]
    by_cases h : k' = k
    · rw [if_pos h]
      exact ih
    · rw [if_neg h]
      simpa [aget, h] using ih

theorem aget_adel_ne {K V : Type} [DecidableEq K] (l : List (K × V)) (k k'' : K)
    (h : k'' ≠ k) : aget (adel l k) k'' = aget l k'' := by
  induction l with
  | nil => simp [adel, aget]
  | cons p rest ih =>
    obtain ⟨k', v'⟩ := p
    rw [adel_cons]
    by_cases hk : k' = k
    · rw [if_pos hk, ih]
      subst hk
      simp [aget, Ne.symm h]
    · rw [if_neg hk]
      by_cases hk2 : k' = k''
      · simp [aget, hk2]
      · simp [aget, hk2, ih]

theorem mem_sadd {A : Type} [DecidableEq A] (l : List A) (x y : A) :
    y ∈ sadd l x ↔ y ∈ l ∨ y = x := by
  unfold sadd
  by_cases h : x ∈ l
  · simp only [if_pos h]
    constructor
    · exact Or.inl
    · rintro (hy | rfl)
      · exact hy
      · exact h
  · simp [if_neg h]

theorem mem_srem {A : Type} [DecidableEq A] (l : List A) (x y : A) :
    y ∈ srem l x ↔ y ∈ l ∧ y ≠ x := by
  simp [srem, List.mem_filter]

theorem sidxGet_sidxAdd_self (m : List (String × List String)) (k : String) (x : String) :
    sidxGet (sidxAdd m k x) k = sadd (sidxGet m k) x := by
  simp [sidxGet, sidxAdd, aget_aset_self]

theorem sidxGet_sidxAdd_ne (m : List (String × List String)) (k k' : String) (x : String)
    (h : k' ≠ k) : sidxGet (sidxAdd m k x) k' = sidxGet m k' := by
  simp [sidxGet, sidxAdd, aget_aset_ne _ _ _ _ h]

theorem sidxGet_sidxRem_self (m : List (String × List String)) (k : String) (x : String) :
    sidxGet (sidxRem m k x) k = srem (sidxGet m k) x := by
  simp [sidxGet, sidxRem, aget_aset_self]

theorem sidxGet_sidxRem_ne (m : List (String × List String)) (k k' : String) (x : String)
    (h : k' ≠ k) : sidxGet (sidxRem m k x) k' = sidxGet m k' := by
  simp [sidxGet, sidxRem, aget_aset_ne _ _ _ _ h]

theorem mem_sidxAdd (m : List (String × List String)) (k k' : String) (x y : String) :
    y ∈ sidxGet (sidxAdd m k x) k' ↔
      (k' = k ∧ (y ∈ sidxGet m k ∨ y = x)) ∨ (k' ≠ k ∧ y ∈ sidxGet m k') := by
  by_cases h : k' = k
  · subst h
    simp [sidxGet_sidxAdd_self, mem_sadd]
  · simp [sidxGet_sidxAdd_ne _ _ _ _ h, h]

theorem mem_sidxRem (m : List (String × List String)) (k k' : String) (x y : String) :
    y ∈ sidxGet (sidxRem m k x) k' ↔
      y ∈ sidxGet m k' ∧ (k' = k → y ≠ x) := by
  by_cases h : k' = k
  · subst h
    simp [sidxGet_sidxRem_self, mem_srem]
  · simp [sidxGet_sidxRem_ne _ _ _ _ h, h]

/-! Composite keys built from colon-free job ids decompose uniquely. -/
theorem colonFree_iff (s : String) : colonFree s = true ↔ ':' ∉ s.data := by
  unfold colonFree
  rw [List.all_eq_true]
  constructor
  · intro h hmem
    have h2 := h ':' hmem
    simp at h2
  · intro h c hc
    simp only [decide_eq_true_eq]
    intro hc2
    subst hc2
    exact h hc

theorem sep_append_inj :
    ∀ (u1 v1 u2 v2 : List Char), ':' ∉ v1 → ':' ∉ v2 →
      u1 ++ ':' :: v1 = u2 ++ ':' :: v2 → u1 = u2 ∧ v1 = v2 := by
  intro u1
  induction u1 with
  | nil =>
    intro v1 u2 v2 h1 _h2 heq
    cases u2 with
    | nil => simpa using heq
    | cons c t =>
      simp only [List.nil_append, List.cons_append, List.cons.injEq] at heq
      obtain ⟨hc, hrest⟩ := heq
      exact absurd (hrest ▸ List.mem_append_right t (List.mem_cons_self ':' v2)) h1
  | cons c t ih =>
    intro v1 u2 v2 h1 h2 heq
    cases u2 with
    | nil =>
      simp only [List.cons_append, List.nil_append, List.cons.injEq] at heq
      obtain ⟨hc, hrest⟩ := heq
      exact absurd (hrest ▸ List.mem_append_right t (List.mem_cons_self ':' v1)) h2
    | cons c2 t2 =>
      simp only [List.cons_append, List.cons.injEq] at heq
      obtain ⟨hc, hrest⟩ := heq
      obtain ⟨h3, h4⟩ := ih v1 t2 v2 h1 h2 hrest
      exact ⟨by rw [hc, h3], h4⟩

theorem ckey_data (b j : String) : (ckey b j).data = b.data ++ ':' :: j.data := by
  simp [ckey, String.data_append]

theorem ckey_inj {b1 j1 b2 j2 : String} (h1 : colonFree j1 = true)
    (h2 : colonFree j2 = true) (heq : ckey b1 j1 = ckey b2 j2) :
    b1 = b2 ∧ j1 = j2 := by
  have hd : b1.data ++ ':' :: j1.data = b2.data ++ ':' :: j2.data := by
    rw [← ckey_data, ← ckey_data, heq]
  obtain ⟨hb, hj⟩ := sep_append_inj _ _ _ _ ((colonFree_iff j1).1 h1)
    ((colonFree_iff j2).1 h2) hd
  exact ⟨String.ext hb, String.ext hj⟩

/-! Frame lemmas: which key families each primitive leaves untouched. -/
theorem updateJobStatus_locks (s : Store) (t : Nat) (b j st : String) :
    ((updateJobStatus s t b j st).1).locks = s.locks := by
  cases h : aget s.jobs (b, j) <;> simp [updateJobStatus, h]

theorem updateJobStatus_runs (s : Store) (t : Nat) (b j st : String) :
    ((updateJobStatus s t b j st).1).runs = s.runs := by
  cases h : aget s.jobs (b, j) <;> simp [updateJobStatus, h]

theorem updateJobStatus_jobRunsIdx (s : Store) (t : Nat) (b j st : String) :
    ((updateJobStatus s t b j st).1).jobRunsIdx = s.jobRunsIdx := by
  cases h : aget s.jobs (b, j) <;> simp [updateJobStatus, h]

theorem updateJobStatus_runsAll (s : Store) (t : Nat) (b j st : String) :
    ((updateJobStatus s t b j st).1).runsAll = s.runsAll := by
  cases h : aget s.jobs (b, j) <;> simp [updateJobStatus, h]

/-- C1 auxiliary: a successful `createRun` leaves the apply lock set to
the claiming run id with expiry `t + 300`. -/
theorem createRun_ok_lock (s : Store) (t : Nat) (rn : RunInput)
    (arts : Option RunArtifacts) (s1 : Store) (r1 : RunHash)
    (hsucc : createRun s t rn arts = (s1, .ok r1)) :
    aget s1.locks (ckey rn.board rn.job_id) =
      some ⟨rn.run_id, t + LOCK_TTL_SECONDS⟩ := by
  simp only [createRun] at hsucc
  split at hsucc
  · exact absurd hsucc (by simp)
  · split at hsucc
    · exact absurd hsucc (by simp)
    · split at hsucc
      · exact absurd hsucc (by simp)
      · have hs := congrArg Prod.fst hsucc
        simp only at hs
        rw [← hs]
        split
        · rw [updateJobStatus_locks]
          exact aget_aset_self _ _ _
        · exact aget_aset_self _ _ _

/-- C1: while the lock written by a successful `createRun` has neither
expired (`t2 < t + 300`) nor been changed or released, any further
`createRun` for the same `(board, job_id)` observes the 409 Conflict
result from the conditional-set and leaves the store untouched. -/
theorem c1_createRun_mutual_exclusion (s : Store) (t : Nat) (rn : RunInput)
    (arts : Option RunArtifacts) (s1 : Store) (r1 : RunHash)
    (hsucc : createRun s t rn arts = (s1, .ok r1)) :
    aget s1.locks (ckey rn.board rn.job_id) =
      some ⟨rn.run_id, t + LOCK_TTL_SECONDS⟩ ∧
    ∀ (s2 : Store) (t2 : Nat) (rn2 : RunInput) (arts2 : Option RunArtifacts),
      rn2.board = rn.board → rn2.job_id = rn.job_id →
      aget s2.locks (ckey rn.board rn.job_id) =
        aget s1.locks (ckey rn.board rn.job_id) →
      t2 < t + LOCK_TTL_SECONDS →
      createRun s2 t2 rn2 arts2 =
        (s2, .err 409 "Job already has an active application in progress") := by
  have hlock := createRun_ok_lock s t rn arts s1 r1 hsucc
  refine ⟨hlock, ?_⟩
  intro s2 t2 rn2 arts2 hb hj hsame ht2
  have hlive : lockLive s2 (ckey rn2.board rn2.job_id) t2 = true := by
    rw [hb, hj]
    unfold lockLive
    rw [hsame, hlock]
    simpa using ht2
  simp [createRun, hlive]

/-- C2: the three rejection outcomes of `createRun` are distinct and the
lock key is deleted before the not-found and bad-state returns: a live
lock yields 409 with nothing changed; an absent job yields 404 with the
lock released and jobs/runs untouched; a job in a non-applicable status
yields 400 with the lock released and jobs/runs untouched. -/
theorem c2_createRun_rejections (s : Store) (t : Nat) (rn : RunInput)
    (arts : Option RunArtifacts) :
    (lockLive s (ckey rn.board rn.job_id) t = true →
      createRun s t rn arts =
        (s, .err 409 "Job already has an active application in progress")) ∧
    (lockLive s (ckey rn.board rn.job_id) t = false →
      getJob s rn.board rn.job_id = none →
      (createRun s t rn arts).2 = .err 404 "Job not found" ∧
      aget (createRun s t rn arts).1.locks (ckey rn.board rn.job_id) = none ∧
      (createRun s t rn arts).1.jobs = s.jobs ∧
      (createRun s t rn arts).1.runs = s.runs) ∧
    (∀ job : JobHash, lockLive s (ckey rn.board rn.job_id) t = false →
      getJob s rn.board rn.job_id = some job →
      applicableStatus job.status = false →
      (createRun s t rn arts).2 =
        .err 400 ("Job is in '" ++ job.status ++
          "' status - only discovered/queued jobs can be applied to") ∧
      aget (createRun s t rn arts).1.locks (ckey rn.board rn.job_id) = none ∧
      (createRun s t rn arts).1.jobs = s.jobs ∧
      (createRun s t rn arts).1.runs = s.runs) := by
  refine ⟨?_, ?_, ?_⟩
  · intro hlive
    simp [createRun, hlive]
  · intro hdead habsent
    have habsent2 : aget s.jobs (rn.board, rn.job_id) = none := habsent
    simp [createRun, hdead, getJob, habsent2, aget_adel_self]
  · intro job hdead hpresent hbad
    have hpresent2 : aget s.jobs (rn.board, rn.job_id) = some job := hpresent
    simp [createRun, hdead, getJob, hpresent2, hbad, aget_adel_self]

theorem updateJobStatus_jobs_self (s : Store) (t : Nat) (b j st : String) (h : JobHash)
    (hj : aget s.jobs (b, j) = some h) :
    aget ((updateJobStatus s t b j st).1).jobs (b, j) =
      some { h with status := st, updated_at := t } := by
  simp [updateJobStatus, hj, aget_aset_self]

/-- C4: when the lock is acquired and the job exists in an applicable
status, `createRun` returns the pending run hash stamped `started_at = t`,
stores it, indexes it under the job's run set and the global run set,
transitions a `discovered` job to `queued`, and leaves an already
`queued` job hash untouched. -/
theorem c4_createRun_success_postcondition (s : Store) (t : Nat) (rn : RunInput)
    (arts : Option RunArtifacts) (job : JobHash)
    (hdead : lockLive s (ckey rn.board rn.job_id) t = false)
    (hjob : getJob s rn.board rn.job_id = some job)
    (happ : applicableStatus job.status = true) :
    (createRun s t rn arts).2 = .ok
      { run_id := rn.run_id, job_id := rn.job_id, board := rn.board,
        variant_id := rn.variant_id, status := "pending", started_at := t,
        completed_at := none, error := "", artifacts := arts } ∧
    aget (createRun s t rn arts).1.runs rn.run_id = some
      { run_id := rn.run_id, job_id := rn.job_id, board := rn.board,
        variant_id := rn.variant_id, status := "pending", started_at := t,
        completed_at := none, error := "", artifacts := arts } ∧
    rn.run_id ∈ sidxGet (createRun s t rn arts).1.jobRunsIdx rn.job_id ∧
    rn.run_id ∈ (createRun s t rn arts).1.runsAll ∧
    (job.status = "discovered" →
      getJob (createRun s t rn arts).1 rn.board rn.job_id =
        some { job with status := "queued", updated_at := t }) ∧
    (job.status = "queued" →
      getJob (createRun s t rn arts).1 rn.board rn.job_id = some job) := by
  have hjob2 : aget s.jobs (rn.board, rn.job_id) = some job := hjob
  have happ2 : (!applicableStatus job.status) = false := by rw [happ]; rfl
  refine ⟨?_, ?_, ?_, ?_, ?_, ?_⟩
  · simp [createRun, hdead, getJob, hjob2, happ2]
  · simp only [createRun, hdead, Bool.false_eq_true, if_false, getJob, hjob2, happ2]
    split
    · rw [updateJobStatus_runs]
      exact aget_aset_self _ _ _
    · exact aget_aset_self _ _ _
  · simp only [createRun, hdead, Bool.false_eq_true, if_false, getJob, hjob2, happ2]
    split
    · rw [updateJobStatus_jobRunsIdx, sidxGet_sidxAdd_self, mem_sadd]
      exact Or.inr rfl
    · rw [sidxGet_sidxAdd_self, mem_sadd]
      exact Or.inr rfl
  · simp only [createRun, hdead, Bool.false_eq_true, if_false, getJob, hjob2, happ2]
    split
    · rw [updateJobStatus_runsAll, mem_sadd]
      exact Or.inr rfl
    · rw [mem_sadd]
      exact Or.inr rfl
  · intro hdisc
    simp only [createRun, hdead, Bool.false_eq_true, if_false, getJob, hjob2, happ2]
    rw [if_pos (by simp [hdisc])]
    exact updateJobStatus_jobs_self _ _ _ _ _ _ hjob2
  · intro hqueued
    simp only [createRun, hdead, Bool.false_eq_true, if_false, getJob, hjob2, happ2]
    rw [if_neg (by simp [hqueued])]
    exact hjob2

/-- C10: `listJobsForUser` returns the empty list both when the user id
does not resolve at all and when the resolved user has no interest tags;
the two cases are indistinguishable to the caller. -/
theorem c10_listJobsForUser_empty (s : Store) (userId : String)
    (boardOpt statusOpt : Option String) :
    (getUser s userId = none →
      listJobsForUser s userId boardOpt statusOpt = []) ∧
    (∀ u : UserHash, getUser s userId = some u → u.tags = [] →
      listJobsForUser s userId boardOpt statusOpt = []) := by
  constructor
  · intro h
    simp [listJobsForUser, h]
  · intro u h htags
    simp [listJobsForUser, h, htags]

theorem updateRun_eq (s : Store) (t : Nat) (runId : String) (u : RunUpdate)
    (d : RunHash) (hd : aget s.runs runId = some d) (hnc : noCrash d u = true) :
    updateRun s t runId u =
      (let nh := updatedHash t d u
       let s1 := { s with runs := aset s.runs runId nh }
       let lk := ckey d.board d.job_id
       if u.status == "success" then
         let sA := (updateJobStatus s1 t d.board d.job_id "applied").1
         ({ sA with locks := adel sA.locks lk }, .ok nh)
       else if u.status == "failed" then
         let sB := if hasActiveSibling s1 runId d.job_id then s1
                   else (updateJobStatus s1 t d.board d.job_id "discovered").1
         ({ sB with locks := adel sB.locks lk }, .ok nh)
       else (s1, .ok nh)) := by
  have harts : (match u.artifacts with
      | none => some d.artifacts
      | some ua =>
        match d.artifacts with
        | none => if ua.answers.isSome then none else some (some ua)
        | some e => some (some (spreadArts e ua)) :
      Option (Option RunArtifacts)) = some (newArtsOf d u) := by
    unfold noCrash at hnc
    unfold newArtsOf
    cases hu : u.artifacts with
    | none => rfl
    | some ua =>
      cases hda : d.artifacts with
      | none =>
        rw [hu, hda] at hnc
        simp only [Option.isSome_none, Bool.false_or] at hnc
        simp [Option.isNone_iff_eq_none.1 hnc]
      | some e => rfl
  show (match aget s.runs runId with
    | none => (s, URes.notFound)
    | some data => _) = _
  rw [hd]
  simp only [harts]
  by_cases hsucc : (u.status == "success") = true
  · simp only [hsucc, if_true, updateJobStatus_runs, aget_aset_self, updatedHash]
  · by_cases hfail : (u.status == "failed") = true
    · simp only [hsucc, hfail, if_true, Bool.false_eq_true, if_false,
        apply_ite (fun st : Store => aget st.runs runId), updateJobStatus_runs,
        aget_aset_self, ite_self, updatedHash]
    · simp only [hsucc, hfail, Bool.false_eq_true, if_false, aget_aset_self, updatedHash]

theorem any_hydrateRuns_aset (s : Store) (runId : String) (nh d : RunHash)
    (p : RunHash → Bool) (hd : aget s.runs runId = some d)
    (hpn : p nh = false) (hpd : p d = false) :
    ∀ rids : List String,
      (hydrateRuns { s with runs := aset s.runs runId nh } rids).any p =
      (hydrateRuns s rids).any p := by
  intro rids
  induction rids with
  | nil => rfl
  | cons rid rest ih =>
    have hL : hydrateRuns { s with runs := aset s.runs runId nh } (rid :: rest) =
        (match aget (aset s.runs runId nh) rid with
         | some h => h :: hydrateRuns { s with runs := aset s.runs runId nh } rest
         | none => hydrateRuns { s with runs := aset s.runs runId nh } rest) := rfl
    have hR : hydrateRuns s (rid :: rest) =
        (match aget s.runs rid with
         | some h => h :: hydrateRuns s rest
         | none => hydrateRuns s rest) := rfl
    rw [hL, hR]
    by_cases hr : rid = runId
    · subst hr
      rw [aget_aset_self, hd]
      simp [List.any_cons, hpn, hpd, ih]
    · rw [aget_aset_ne _ _ _ _ hr]
      cases aget s.runs rid with
      | none => exact ih
      | some h => simp [List.any_cons, ih]

/-- Replacing the hash of the run being updated does not change the
sibling-activity test, since that run is filtered out by its id on both
sides. -/
theorem hasActiveSibling_aset (s : Store) (runId jobId : String) (nh d : RunHash)
    (hd : aget s.runs runId = some d) (hn : nh.run_id = runId)
    (hdr : d.run_id = runId) :
    hasActiveSibling { s with runs := aset s.runs runId nh } runId jobId =
      hasActiveSibling s runId jobId := by
  unfold hasActiveSibling listRuns
  exact any_hydrateRuns_aset s runId nh d _ hd
    (by simp [hn]) (by simp [hdr]) _

/-- C3: `updateRun`'s job side effects are keyed by the new run status:
`success` sets the owning job to `applied` and deletes the apply lock;
`failed` deletes the lock unconditionally and reverts the job to
`discovered` exactly when no run of the job other than the updated one
is pending or submitted; any other status leaves the job hash and the
lock family untouched. -/
theorem c3_updateRun_side_effects (s : Store) (t : Nat) (runId : String)
    (u : RunUpdate) (d : RunHash) (job : JobHash)
    (hd : aget s.runs runId = some d) (hdr : d.run_id = runId)
    (hnc : noCrash d u = true)
    (hjob : aget s.jobs (d.board, d.job_id) = some job) :
    (u.status = "success" →
      aget (updateRun s t runId u).1.jobs (d.board, d.job_id) =
        some { job with status := "applied", updated_at := t } ∧
      aget (updateRun s t runId u).1.locks (ckey d.board d.job_id) = none) ∧
    (u.status = "failed" →
      aget (updateRun s t runId u).1.locks (ckey d.board d.job_id) = none ∧
      aget (updateRun s t runId u).1.jobs (d.board, d.job_id) =
        (if hasActiveSibling s runId d.job_id then some job
         else some { job with status := "discovered", updated_at := t })) ∧
    (u.status ≠ "success" → u.status ≠ "failed" →
      aget (updateRun s t runId u).1.jobs (d.board, d.job_id) = some job ∧
      (updateRun s t runId u).1.locks = s.locks) := by
  rw [updateRun_eq s t runId u d hd hnc]
  simp only []
  have hn : (updatedHash t d u).run_id = runId := by
    simp [updatedHash, hdr]
  refine ⟨?_, ?_, ?_⟩
  · intro hs
    have hbeq : (u.status == "success") = true := by simp [hs]
    simp only [hbeq, if_true]
    constructor
    · exact updateJobStatus_jobs_self _ _ _ _ _ _ hjob
    · exact aget_adel_self _ _
  · intro hf
    have hbeq1 : (u.status == "success") = false := by simp [hf]
    have hbeq2 : (u.status == "failed") = true := by simp [hf]
    simp only [hbeq1, hbeq2, if_true, Bool.false_eq_true, if_false]
    constructor
    · exact aget_adel_self _ _
    · rw [show ({ s with runs := aset s.runs runId (updatedHash t d u) } : Store) =
          { s with runs := aset s.runs runId (updatedHash t d u) } from rfl]
      rw [hasActiveSibling_aset s runId d.job_id (updatedHash t d u) d hd hn hdr]
      rw [apply_ite (fun st : Store => aget st.jobs (d.board, d.job_id))]
      by_cases hact : hasActiveSibling s runId d.job_id = true
      · simp only [hact, if_true]
        exact hjob
      · simp only [hact, Bool.false_eq_true, if_false]
        exact updateJobStatus_jobs_self _ _ _ _ _ _ hjob
  · intro h1 h2
    have hbeq1 : (u.status == "success") = false := by simp [h1]
    have hbeq2 : (u.status == "failed") = false := by simp [h2]
    simp only [hbeq1, hbeq2, Bool.false_eq_true, if_false]
    exact ⟨hjob, trivial⟩

/-! Lookup characterization of the object-spread merge. -/
theorem aget_append {K V : Type} [DecidableEq K] (x y : List (K × V)) (k : K) :
    aget (x ++ y) k =
      match aget x k with
      | some v => some v
      | none => aget y k := by
  induction x with
  | nil => simp [aget]
  | cons p rest ih =>
    obtain ⟨k', v'⟩ := p
    by_cases h : k' = k
    · simp [aget, h]
    · simp [aget, h, ih]

theorem aget_map_keys (a : List (String × String)) (g : String → String → String)
    (k : String) :
    aget (a.map (fun p => (p.1, g p.1 p.2))) k = (aget a k).map (g k) := by
  induction a with
  | nil => simp [aget]
  | cons p rest ih =>
    obtain ⟨k', v'⟩ := p
    by_cases h : k' = k
    · subst h
      simp [aget]
    · simp [aget, h, ih]

theorem aget_filter_none (a b : List (String × String)) (k : String) :
    aget (b.filter (fun p => decide (aget a p.1 = none))) k =
      if aget a k = none then aget b k else none := by
  induction b with
  | nil => simp [aget]
  | cons p rest ih =>
    obtain ⟨k', v'⟩ := p
    by_cases hka : aget a k' = none
    · by_cases h : k' = k
      · subst h
        simp [aget, hka]
      · simp only [List.filter_cons, hka, decide_True, if_true]
        rw [show aget ((k', v') :: rest.filter (fun p => decide (aget a p.1 = none))) k =
          aget (rest.filter (fun p => decide (aget a p.1 = none))) k from by simp [aget, h]]
        rw [ih]
        by_cases hk : aget a k = none
        · simp [hk, aget, h]
        · simp [hk]
    · simp only [List.filter_cons, hka, decide_False, Bool.false_eq_true, if_false]
      rw [ih]
      by_cases h : k' = k
      · subst h
        simp [hka, aget]
      · by_cases hk : aget a k = none
        · simp [hk, aget, h]
        · simp [hk]

theorem aget_amerge (a b : List (String × String)) (k : String) :
    aget (amerge a b) k =
      match aget b k with
      | some v => some v
      | none => aget a k := by
  unfold amerge
  rw [aget_append]
  rw [aget_map_keys a (fun key v => (aget b key).getD v) k]
  cases ha : aget a k with
  | some v =>
    cases hb : aget b k with
    | some w => simp
    | none => simp
  | none =>
    rw [aget_filter_none]
    cases hb : aget b k with
    | some w => simp [ha, hb]
    | none => simp [ha, hb]

theorem spreadArts_fields (e ua : RunArtifacts) :
    (spreadArts e ua).fields = amerge e.fields ua.fields := by
  cases h1 : ua.answers <;> cases h2 : e.answers <;> simp [spreadArts, h1, h2]

/-- The second component of a crash-free `updateRun` on an existing run
is always the written-back hash. -/
theorem updateRun_snd (s : Store) (t : Nat) (runId : String) (u : RunUpdate)
    (d : RunHash) (hd : aget s.runs runId = some d) (hnc : noCrash d u = true) :
    (updateRun s t runId u).2 = .ok (updatedHash t d u) := by
  rw [updateRun_eq s t runId u d hd hnc]
  by_cases h1 : (u.status == "success") = true <;>
    by_cases h2 : (u.status == "failed") = true <;>
      simp [h1, h2]

/-- C6: artifact merge is additive.  Generally, a crash-free `updateRun`
carrying artifacts stores the spread of the old record under the new
one: on every key the update wins and otherwise the earlier value
survives, an `answers` sub-map present on both sides is merged key-wise,
and an `answers` present on only one side survives.  Concretely, the
spec's chain starting from `{resume_url: "a"}` accumulates
`{resume_url: "a", notes: "b"}` and then `answers {"x": "1", "y": "2"}`. -/
theorem c6_artifact_merge_additive :
    (∀ (s : Store) (t : Nat) (runId : String) (u : RunUpdate) (d : RunHash)
        (e ua : RunArtifacts),
      aget s.runs runId = some d → d.artifacts = some e → u.artifacts = some ua →
      (updateRun s t runId u).2 = .ok (updatedHash t d u) ∧
      (updatedHash t d u).artifacts = some (spreadArts e ua) ∧
      (∀ k, aget (spreadArts e ua).fields k =
        match aget ua.fields k with
        | some v => some v
        | none => aget e.fields k) ∧
      (ua.answers = none → (spreadArts e ua).answers = e.answers) ∧
      (∀ ub, ua.answers = some ub → e.answers = none →
        (spreadArts e ua).answers = some ub) ∧
      (∀ ub eb, ua.answers = some ub → e.answers = some eb →
        (spreadArts e ua).answers = some (amerge eb ub) ∧
        ∀ k, aget (amerge eb ub) k =
          match aget ub k with
          | some v => some v
          | none => aget eb k)) ∧
    ((aget c6s1.runs "r1").map (fun r => r.artifacts) =
      some (some { fields := [("resume_url", "a"), ("notes", "b")], answers := none }) ∧
     (aget c6s2.runs "r1").map (fun r => r.artifacts) =
      some (some { fields := [("resume_url", "a"), ("notes", "b")],
                   answers := some [("x", "1")] }) ∧
     (aget c6s3.runs "r1").map (fun r => r.artifacts) =
      some (some { fields := [("resume_url", "a"), ("notes", "b")],
                   answers := some [("x", "1"), ("y", "2")] })) := by
  constructor
  · intro s t runId u d e ua hd hde hua
    have hnc : noCrash d u = true := by simp [noCrash, hua, hde]
    refine ⟨updateRun_snd s t runId u d hd hnc, ?_, ?_, ?_, ?_, ?_⟩
    · simp [updatedHash, newArtsOf, hua, hde]
    · intro k
      rw [spreadArts_fields]
      exact aget_amerge _ _ _
    · intro hn
      simp [spreadArts, hn]
    · intro ub hub hen
      simp [spreadArts, hub, hen]
    · intro ub eb hub heb
      refine ⟨by simp [spreadArts, hub, heb], ?_⟩
      intro k
      exact aget_amerge _ _ _
  · exact ⟨by decide, by decide, by decide⟩

/-- C6 witness: the general conjunct applied to the first chain step. -/
theorem c6_artifact_merge_additive_witness :
    aget c6s0.runs "r1" = some c6run ∧
    c6run.artifacts = some { fields := [("resume_url", "a")], answers := none } ∧
    (updateRun c6s0 1 "r1"
      { status := "pending", error := none,
        artifacts := some { fields := [("notes", "b")], answers := none } }).2 =
      .ok (updatedHash 1 c6run
        { status := "pending", error := none,
          artifacts := some { fields := [("notes", "b")], answers := none } }) := by
  refine ⟨by decide, by decide, ?_⟩
  exact ((c6_artifact_merge_additive.1 c6s0 1 "r1"
    { status := "pending", error := none,
      artifacts := some { fields := [("notes", "b")], answers := none } }
    c6run { fields := [("resume_url", "a")], answers := none }
    { fields := [("notes", "b")], answers := none }
    (by decide) (by decide) (by decide)).1)

/-- C9 counterexample: `updateRun` enforces no transition relation — a
run publicly driven to `success` is moved back to `pending` by a further
`updateRun`, so the claimed run-status machine (no transition out of a
terminal status) does not hold of the code. -/
theorem c9_counterexample :
    (aget c9s2.runs "r1").map (fun r => r.status) = some "success" ∧
    (aget (updateRun c9s2 2 "r1" { status := "pending" }).1.runs "r1").map
      (fun r => r.status) = some "pending" := by
  constructor
  · decide
  · decide

/-- C9 (amended): a run is created only in status `pending`, and a
crash-free `updateRun` on an existing run stores exactly the supplied
status with no validation of the transition. -/
theorem c9_run_status_machine_amended :
    (∀ (s : Store) (t : Nat) (rn : RunInput) (arts : Option RunArtifacts)
        (s' : Store) (r : RunHash),
      createRun s t rn arts = (s', .ok r) → r.status = "pending") ∧
    (∀ (s : Store) (t : Nat) (runId : String) (u : RunUpdate) (d : RunHash),
      aget s.runs runId = some d → noCrash d u = true →
      (updateRun s t runId u).2 = .ok (updatedHash t d u) ∧
      (updatedHash t d u).status = u.status) := by
  constructor
  · intro s t rn arts s' r hsucc
    simp only [createRun] at hsucc
    split at hsucc
    · exact absurd hsucc (by simp)
    · split at hsucc
      · exact absurd hsucc (by simp)
      · split at hsucc
        · exact absurd hsucc (by simp)
        · have hr := congrArg Prod.snd hsucc
          simp only at hr
          have : CRes.ok _ = CRes.ok r := hr
          cases this
          rfl
  · intro s t runId u d hd hnc
    exact ⟨updateRun_snd s t runId u d hd hnc, by simp [updatedHash]⟩

theorem writeJob_jobs (s : Store) (t : Nat) (xt : Classifier) (j : JobInput) :
    (writeJob s t xt j).jobs = aset s.jobs (j.board, j.job_id) (mkFullJob t xt j) := rfl

theorem mkFullJob_status (t : Nat) (xt : Classifier) (j : JobInput) :
    (mkFullJob t xt j).status = "discovered" := rfl

theorem bulkInsert_frame (t : Nat) (xt : Classifier) :
    ∀ (js : List JobInput) (acc : Store) (b j : String),
      (∀ jin ∈ js, (jin.board, jin.job_id) ≠ (b, j)) →
      aget (bulkInsert t xt acc js).1.jobs (b, j) = aget acc.jobs (b, j) := by
  intro js
  induction js with
  | nil => intro acc b j _; rfl
  | cons j0 rest ih =>
    intro acc b j hne
    have h0 : (j0.board, j0.job_id) ≠ (b, j) := hne j0 (List.mem_cons_self _ _)
    have hrest : ∀ jin ∈ rest, (jin.board, jin.job_id) ≠ (b, j) :=
      fun jin hm => hne jin (List.mem_cons_of_mem _ hm)
    show aget (bulkInsert t xt (writeJob acc t xt j0) rest).1.jobs (b, j) = _
    rw [ih (writeJob acc t xt j0) b j hrest, writeJob_jobs,
      aget_aset_ne _ _ _ _ (fun e => h0 e.symm)]

theorem bulkInsert_results (t : Nat) (xt : Classifier) :
    ∀ (js : List JobInput) (acc : Store),
      (bulkInsert t xt acc js).2 = js.map (mkFullJob t xt) := by
  intro js
  induction js with
  | nil => intro acc; rfl
  | cons j0 rest ih =>
    intro acc
    show mkFullJob t xt j0 :: (bulkInsert t xt (writeJob acc t xt j0) rest).2 = _
    rw [ih, List.map_cons]

theorem bulkInsert_discovered (t : Nat) (xt : Classifier) :
    ∀ (js : List JobInput) (acc : Store), ∀ jin ∈ js,
      ∃ jh2, aget (bulkInsert t xt acc js).1.jobs (jin.board, jin.job_id) = some jh2 ∧
        jh2.status = "discovered" := by
  intro js
  induction js with
  | nil => intro acc jin hm; cases hm
  | cons j0 rest ih =>
    intro acc jin hm
    rcases List.mem_cons.1 hm with rfl | hm2
    · by_cases hlater : ∃ jin2 ∈ rest, (jin2.board, jin2.job_id) = (jin.board, jin.job_id)
      · obtain ⟨jin2, hm2, hkey⟩ := hlater
        obtain ⟨jh2, hjh2, hst⟩ := ih (writeJob acc t xt jin) jin2 hm2
        exact ⟨jh2, by rw [← hkey]; exact hjh2, hst⟩
      · push_neg at hlater
        have := bulkInsert_frame t xt rest (writeJob acc t xt jin)
          jin.board jin.job_id (by
            intro jin2 hm2
            exact hlater jin2 hm2)
        refine ⟨mkFullJob t xt jin, ?_, rfl⟩
        show aget (bulkInsert t xt (writeJob acc t xt jin) rest).1.jobs
          (jin.board, jin.job_id) = _
        rw [this, writeJob_jobs, aget_aset_self]
    · exact ih (writeJob acc t xt j0) jin hm2

/-- C8: `addJobsBulk` writes nothing for an input whose `(board, job_id)`
hash already exists — the stored record is bit-for-bit untouched even if
the input differs — inserts only genuinely new jobs, always with status
`discovered`, and returns exactly the hashes of the new ones. -/
theorem c8_addJobsBulk_skips_existing (s : Store) (t : Nat) (xt : Classifier)
    (js : List JobInput) :
    (∀ b j, (aget s.jobs (b, j)).isSome = true →
      aget (addJobsBulk s t xt js).1.jobs (b, j) = aget s.jobs (b, j)) ∧
    (∀ jh ∈ (addJobsBulk s t xt js).2,
      aget s.jobs (jh.board, jh.job_id) = none ∧
      jh.status = "discovered" ∧
      ∃ jh2, aget (addJobsBulk s t xt js).1.jobs (jh.board, jh.job_id) = some jh2 ∧
        jh2.status = "discovered") ∧
    (∀ jin ∈ js, aget s.jobs (jin.board, jin.job_id) = none →
      ∃ jh, jh ∈ (addJobsBulk s t xt js).2 ∧
        jh.board = jin.board ∧ jh.job_id = jin.job_id) := by
  refine ⟨?_, ?_, ?_⟩
  · intro b j hsome
    unfold addJobsBulk
    apply bulkInsert_frame
    intro jin hm heq
    have := (List.mem_filter.1 hm).2
    rw [heq] at this
    simp only [Option.isNone_iff_eq_none, decide_eq_true_eq] at this
    rw [this] at hsome
    exact absurd hsome (by simp)
  · intro jh hm
    unfold addJobsBulk at hm ⊢
    rw [bulkInsert_results] at hm
    obtain ⟨jin, hmf, rfl⟩ := List.mem_map.1 hm
    have hnone := (List.mem_filter.1 hmf).2
    simp only [Option.isNone_iff_eq_none, decide_eq_true_eq] at hnone
    refine ⟨hnone, rfl, ?_⟩
    exact bulkInsert_discovered t xt _ s jin hmf
  · intro jin hm hnone
    unfold addJobsBulk
    rw [bulkInsert_results]
    refine ⟨mkFullJob t xt jin, ?_, rfl, rfl⟩
    exact List.mem_map_of_mem _ (List.mem_filter.2 ⟨hm, by simp [hnone]⟩)

theorem inv_emptyStore : Inv emptyStore := by
  refine ⟨?_, ?_, ?_⟩
  · intro b j h hj
    simp [emptyStore, aget] at hj
  · intro st ck hck
    simp [emptyStore, sidxGet, aget] at hck
  · intro b j h hj
    simp [emptyStore, aget] at hj

/-- Two stores agreeing on jobs and the status index share the
invariant. -/
theorem inv_depends (s1 s2 : Store) (hj : s1.jobs = s2.jobs)
    (hs : s1.statusIdx = s2.statusIdx) (h : Inv s1) : Inv s2 := by
  obtain ⟨h1, h2, h3⟩ := h
  refine ⟨?_, ?_, ?_⟩
  · intro b j hh hget
    exact h1 b j hh (by rw [hj]; exact hget)
  · intro st ck hck
    obtain ⟨b, j, hh, hc, hg, hst⟩ := h2 st ck (by rw [hs]; exact hck)
    exact ⟨b, j, hh, hc, by rw [← hj]; exact hg, hst⟩
  · intro b j hh hget
    rw [← hs]
    exact h3 b j hh (by rw [hj]; exact hget)

theorem inv_statusConsistent (s : Store) (h : Inv s) : statusConsistent s := by
  obtain ⟨hk, hsound, hcomp⟩ := h
  intro b j hh hget
  refine ⟨hcomp b j hh hget, ?_⟩
  intro st hne hmem
  obtain ⟨b', j', h', hc, hg, hst⟩ := hsound st (ckey b j) hmem
  obtain ⟨hcf', _⟩ := hk b' j' h' hg
  obtain ⟨hcf, _⟩ := hk b j hh hget
  obtain ⟨hb, hj⟩ := ckey_inj hcf' hcf hc.symm
  rw [hb, hj] at hg
  rw [hget] at hg
  cases hg
  exact hne hst.symm

theorem inv_updateJobStatus (s : Store) (t : Nat) (b j st : String)
    (hst : st ≠ "") (hInv : Inv s) : Inv (updateJobStatus s t b j st).1 := by
  obtain ⟨hk, hsound, hcomp⟩ := hInv
  cases hget : aget s.jobs (b, j) with
  | none =>
    rw [show (updateJobStatus s t b j st).1 = s from by simp [updateJobStatus, hget]]
    exact ⟨hk, hsound, hcomp⟩
  | some data =>
    obtain ⟨hcfj, hnst⟩ := hk b j data hget
    have heq : (updateJobStatus s t b j st).1 =
        { s with
          jobs := aset s.jobs (b, j) { data with status := st, updated_at := t },
          statusIdx := sidxAdd (sidxRem s.statusIdx data.status (ckey b j)) st
            (ckey b j) } := by
      simp [updateJobStatus, hget, hnst]
    rw [heq]
    refine ⟨?_, ?_, ?_⟩
    · intro b' j' h' hg'
      by_cases hbj : (b', j') = (b, j)
      · injection hbj with hb hj
        subst hb
        subst hj
        rw [aget_aset_self] at hg'
        cases hg'
        exact ⟨hcfj, hst⟩
      · rw [aget_aset_ne _ _ _ _ hbj] at hg'
        exact hk b' j' h' hg'
    · intro st'' ck hck
      rcases (mem_sidxAdd _ _ _ _ _).1 hck with ⟨heq2, hin⟩ | ⟨hne, hin⟩
      · rcases hin with hin | hceq
        · rcases (mem_sidxRem _ _ _ _ _).1 hin with ⟨hold, himp⟩
          obtain ⟨b', j', h', hc, hg, hst'⟩ := hsound st ck hold
          have hbj : (b', j') ≠ (b, j) := by
            intro he
            injection he with hb hj
            subst hb
            subst hj
            rw [hget] at hg
            cases hg
            exact (himp hst'.symm) hc
          exact ⟨b', j', h', hc, by rw [aget_aset_ne _ _ _ _ hbj]; exact hg,
            hst'.trans heq2.symm⟩
        · exact ⟨b, j, _, hceq, aget_aset_self _ _ _, heq2.symm⟩
      · rcases (mem_sidxRem _ _ _ _ _).1 hin with ⟨hold, himp⟩
        obtain ⟨b', j', h', hc, hg, hst'⟩ := hsound st'' ck hold
        have hbj : (b', j') ≠ (b, j) := by
          intro he
          injection he with hb hj
          subst hb
          subst hj
          rw [hget] at hg
          cases hg
          exact (himp hst'.symm) hc
        exact ⟨b', j', h', hc, by rw [aget_aset_ne _ _ _ _ hbj]; exact hg, hst'⟩
    · intro b' j' h' hg'
      by_cases hbj : (b', j') = (b, j)
      · injection hbj with hb hj
        subst hb
        subst hj
        rw [aget_aset_self] at hg'
        cases hg'
        rw [sidxGet_sidxAdd_self, mem_sadd]
        exact Or.inr rfl
      · rw [aget_aset_ne _ _ _ _ hbj] at hg'
        have hmem := hcomp b' j' h' hg'
        obtain ⟨hcfj', _⟩ := hk b' j' h' hg'
        have hckne : ckey b' j' ≠ ckey b j := by
          intro he
          obtain ⟨hb, hj⟩ := ckey_inj hcfj' hcfj he
          exact hbj (by rw [hb, hj])
        have hin : ckey b' j' ∈ sidxGet (sidxRem s.statusIdx data.status (ckey b j))
            h'.status := (mem_sidxRem _ _ _ _ _).2 ⟨hmem, fun _ => hckne⟩
        by_cases hsame : h'.status = st
        · exact (mem_sidxAdd _ _ _ _ _).2 (Or.inl ⟨hsame, Or.inl (hsame ▸ hin)⟩)
        · exact (mem_sidxAdd _ _ _ _ _).2 (Or.inr ⟨hsame, hin⟩)

theorem inv_writeJob (s : Store) (t : Nat) (xt : Classifier) (j : JobInput)
    (hcf : colonFree j.job_id = true)
    (hfresh : aget s.jobs (j.board, j.job_id) = none ∨
      ∃ h0, aget s.jobs (j.board, j.job_id) = some h0 ∧ h0.status = "discovered")
    (hInv : Inv s) : Inv (writeJob s t xt j) := by
  obtain ⟨hk, hsound, hcomp⟩ := hInv
  have hjobs : (writeJob s t xt j).jobs =
      aset s.jobs (j.board, j.job_id) (mkFullJob t xt j) := rfl
  have hsi : (writeJob s t xt j).statusIdx =
      sidxAdd s.statusIdx "discovered" (ckey j.board j.job_id) := rfl
  refine ⟨?_, ?_, ?_⟩
  · intro b' j' h' hg'
    rw [hjobs] at hg'
    by_cases hbj : (b', j') = (j.board, j.job_id)
    · injection hbj with hb hj
      subst hb
      subst hj
      rw [aget_aset_self] at hg'
      cases hg'
      exact ⟨hcf, by simp [mkFullJob]⟩
    · rw [aget_aset_ne _ _ _ _ hbj] at hg'
      exact hk b' j' h' hg'
  · intro st'' ck hck
    rw [hsi] at hck
    rcases (mem_sidxAdd _ _ _ _ _).1 hck with ⟨heq2, hin⟩ | ⟨hne, hin⟩
    · rcases hin with hin | hceq
      · obtain ⟨b', j', h', hc, hg, hst'⟩ := hsound "discovered" ck hin
        by_cases hbj : (b', j') = (j.board, j.job_id)
        · injection hbj with hb hj
          subst hb
          subst hj
          refine ⟨j.board, j.job_id, mkFullJob t xt j, hc, ?_, ?_⟩
          · rw [hjobs, aget_aset_self]
          · rw [mkFullJob_status, heq2]
        · refine ⟨b', j', h', hc, ?_, hst'.trans heq2.symm⟩
          rw [hjobs, aget_aset_ne _ _ _ _ hbj]
          exact hg
      · refine ⟨j.board, j.job_id, mkFullJob t xt j, hceq, ?_, ?_⟩
        · rw [hjobs, aget_aset_self]
        · rw [mkFullJob_status, heq2]
    · obtain ⟨b', j', h', hc, hg, hst'⟩ := hsound st'' ck hin
      have hbj : (b', j') ≠ (j.board, j.job_id) := by
        intro he
        injection he with hb hj
        subst hb
        subst hj
        rcases hfresh with hnone | ⟨h0, hh0, hh0st⟩
        · rw [hnone] at hg
          cases hg
        · rw [hh0] at hg
          cases hg
          exact hne (hst'.symm.trans hh0st)
      refine ⟨b', j', h', hc, ?_, hst'⟩
      rw [hjobs, aget_aset_ne _ _ _ _ hbj]
      exact hg
  · intro b' j' h' hg'
    rw [hjobs] at hg'
    rw [hsi]
    by_cases hbj : (b', j') = (j.board, j.job_id)
    · injection hbj with hb hj
      subst hb
      subst hj
      rw [aget_aset_self] at hg'
      cases hg'
      rw [mkFullJob_status, sidxGet_sidxAdd_self, mem_sadd]
      exact Or.inr rfl
    · rw [aget_aset_ne _ _ _ _ hbj] at hg'
      have hmem := hcomp b' j' h' hg'
      by_cases hsame : h'.status = "discovered"
      · exact (mem_sidxAdd _ _ _ _ _).2 (Or.inl ⟨hsame, Or.inl (hsame ▸ hmem)⟩)
      · exact (mem_sidxAdd _ _ _ _ _).2 (Or.inr ⟨hsame, hmem⟩)

theorem inv_removeJob (s : Store) (b j : String) (hInv : Inv s) :
    Inv (removeJob s b j).1 := by
  obtain ⟨hk, hsound, hcomp⟩ := hInv
  cases hget : aget s.jobs (b, j) with
  | none =>
    rw [show (removeJob s b j).1 = s from by simp [removeJob, hget]]
    exact ⟨hk, hsound, hcomp⟩
  | some d =>
    obtain ⟨hcfj, hnst⟩ := hk b j d hget
    have heq : (removeJob s b j).1 =
        { s with
          statusIdx := sidxRem s.statusIdx d.status (ckey b j),
          tagIdx := if d.tags ≠ [] then
              d.tags.foldl (fun a tg => sidxRem a tg (ckey b j)) s.tagIdx
            else s.tagIdx,
          boardJobsIdx := sidxRem s.boardJobsIdx b j,
          jobs := adel s.jobs (b, j) } := by
      simp [removeJob, hget, hnst]
    rw [heq]
    refine ⟨?_, ?_, ?_⟩
    · intro b' j' h' hg'
      by_cases hbj : (b', j') = (b, j)
      · rw [hbj, aget_adel_self] at hg'
        cases hg'
      · rw [aget_adel_ne _ _ _ hbj] at hg'
        exact hk b' j' h' hg'
    · intro st'' ck hck
      rcases (mem_sidxRem _ _ _ _ _).1 hck with ⟨hold, himp⟩
      obtain ⟨b', j', h', hc, hg, hst'⟩ := hsound st'' ck hold
      have hbj : (b', j') ≠ (b, j) := by
        intro he
        injection he with hb hj
        subst hb
        subst hj
        rw [hget] at hg
        cases hg
        exact (himp hst'.symm) hc
      exact ⟨b', j', h', hc, by rw [aget_adel_ne _ _ _ hbj]; exact hg, hst'⟩
    · intro b' j' h' hg'
      by_cases hbj : (b', j') = (b, j)
      · rw [hbj, aget_adel_self] at hg'
        cases hg'
      · rw [aget_adel_ne _ _ _ hbj] at hg'
        have hmem := hcomp b' j' h' hg'
        obtain ⟨hcfj', _⟩ := hk b' j' h' hg'
        have hckne : ckey b' j' ≠ ckey b j := by
          intro he
          obtain ⟨hb, hj⟩ := ckey_inj hcfj' hcfj he
          exact hbj (by rw [hb, hj])
        exact (mem_sidxRem _ _ _ _ _).2 ⟨hmem, fun _ => hckne⟩

theorem updateRun_notFound (s : Store) (t : Nat) (runId : String) (u : RunUpdate)
    (hd : aget s.runs runId = none) : updateRun s t runId u = (s, .notFound) := by
  simp [updateRun, hd]

theorem updateRun_crash (s : Store) (t : Nat) (runId : String) (u : RunUpdate)
    (d : RunHash) (hd : aget s.runs runId = some d) (hnc : noCrash d u = false) :
    updateRun s t runId u = (s, .crash) := by
  unfold noCrash at hnc
  cases hu : u.artifacts with
  | none => rw [hu] at hnc; cases hnc
  | some ua =>
    rw [hu] at hnc
    cases hda : d.artifacts with
    | some e => rw [hda] at hnc; simp at hnc
    | none =>
      rw [hda] at hnc
      simp only [Option.isSome_none, Bool.false_or] at hnc
      cases hans : ua.answers with
      | none => rw [hans] at hnc; simp at hnc
      | some ub => simp [updateRun, hd, hu, hda, hans]

theorem inv_createRun (s : Store) (t : Nat) (rn : RunInput)
    (arts : Option RunArtifacts) (hInv : Inv s) : Inv (createRun s t rn arts).1 := by
  unfold createRun
  by_cases hl : lockLive s (ckey rn.board rn.job_id) t = true
  · simp only [hl, if_true]
    exact hInv
  · simp only [hl, Bool.false_eq_true, if_false]
    cases hj : aget s.jobs (rn.board, rn.job_id) with
    | none =>
      simp only [getJob, hj]
      exact inv_depends s _ rfl rfl hInv
    | some job =>
      simp only [getJob, hj]
      by_cases happ : (!applicableStatus job.status) = true
      · simp only [happ, if_true]
        exact inv_depends s _ rfl rfl hInv
      · simp only [happ, Bool.false_eq_true, if_false]
        by_cases hdisc : (job.status == "discovered") = true
        · simp only [hdisc, if_true]
          apply inv_updateJobStatus _ _ _ _ _ (by decide)
          exact inv_depends s _ rfl rfl hInv
        · simp only [hdisc, Bool.false_eq_true, if_false]
          exact inv_depends s _ rfl rfl hInv

theorem inv_updateRun (s : Store) (t : Nat) (runId : String) (u : RunUpdate)
    (hInv : Inv s) : Inv (updateRun s t runId u).1 := by
  cases hd : aget s.runs runId with
  | none =>
    rw [updateRun_notFound s t runId u hd]
    exact hInv
  | some d =>
    cases hnc : noCrash d u with
    | false =>
      rw [updateRun_crash s t runId u d hd hnc]
      exact hInv
    | true =>
      rw [updateRun_eq s t runId u d hd hnc]
      simp only []
      by_cases h1 : (u.status == "success") = true
      · simp only [h1, if_true]
        apply inv_depends ((updateJobStatus
          { s with runs := aset s.runs runId (updatedHash t d u) }
          t d.board d.job_id "applied").1) _ rfl rfl
        apply inv_updateJobStatus _ _ _ _ _ (by decide)
        exact inv_depends s _ rfl rfl hInv
      · by_cases h2 : (u.status == "failed") = true
        · simp only [h1, h2, if_true, Bool.false_eq_true, if_false]
          by_cases hact : hasActiveSibling
              { s with runs := aset s.runs runId (updatedHash t d u) } runId
              d.job_id = true
          · simp only [hact, if_true]
            exact inv_depends s _ rfl rfl hInv
          · simp only [hact, Bool.false_eq_true, if_false]
            apply inv_depends ((updateJobStatus
              { s with runs := aset s.runs runId (updatedHash t d u) }
              t d.board d.job_id "discovered").1) _ rfl rfl
            apply inv_updateJobStatus _ _ _ _ _ (by decide)
            exact inv_depends s _ rfl rfl hInv
        · simp only [h1, h2, Bool.false_eq_true, if_false]
          exact inv_depends s _ rfl rfl hInv

theorem inv_bulkInsert (t : Nat) (xt : Classifier) :
    ∀ (js : List JobInput) (acc : Store),
      (∀ jin ∈ js, colonFree jin.job_id = true) →
      (∀ jin ∈ js, aget acc.jobs (jin.board, jin.job_id) = none ∨
        ∃ h0, aget acc.jobs (jin.board, jin.job_id) = some h0 ∧
          h0.status = "discovered") →
      Inv acc → Inv (bulkInsert t xt acc js).1 := by
  intro js
  induction js with
  | nil => intro acc _ _ hi; exact hi
  | cons j0 rest ih =>
    intro acc hcf hfresh hi
    show Inv (bulkInsert t xt (writeJob acc t xt j0) rest).1
    apply ih
    · intro jin hm
      exact hcf jin (List.mem_cons_of_mem _ hm)
    · intro jin hm
      by_cases hbj : (jin.board, jin.job_id) = (j0.board, j0.job_id)
      · right
        refine ⟨mkFullJob t xt j0, ?_, rfl⟩
        rw [writeJob_jobs, hbj, aget_aset_self]
      · rw [writeJob_jobs, aget_aset_ne _ _ _ _ hbj]
        exact hfresh jin (List.mem_cons_of_mem _ hm)
    · exact inv_writeJob acc t xt j0 (hcf j0 (List.mem_cons_self _ _))
        (hfresh j0 (List.mem_cons_self _ _)) hi

theorem inv_applyOp (xt : Classifier) (s : Store) (op : Op) (hInv : Inv s)
    (hok : okOp s op = true) : Inv (applyOp xt s op) := by
  cases op with
  | addJob t j =>
    simp only [okOp, Bool.and_eq_true, decide_eq_true_eq] at hok
    exact inv_writeJob s t xt j hok.2 (Or.inl hok.1) hInv
  | addJobsBulk t js =>
    simp only [okOp, List.all_eq_true] at hok
    apply inv_bulkInsert t xt _ s
    · intro jin hm
      exact hok jin ((List.mem_filter.1 hm).1)
    · intro jin hm
      left
      have := (List.mem_filter.1 hm).2
      simpa using this
    · exact hInv
  | updateJobStatus t b j st =>
    simp only [okOp] at hok
    apply inv_updateJobStatus s t b j st _ hInv
    intro he
    subst he
    exact absurd hok (by decide)
  | removeJob b j => exact inv_removeJob s b j hInv
  | createRun t rn arts => exact inv_createRun s t rn arts hInv
  | updateRun t rid u => exact inv_updateRun s t rid u hInv

theorem inv_runOps (xt : Classifier) :
    ∀ (ops : List Op) (s : Store), Inv s → goodOps xt s ops = true →
      Inv (runOps xt s ops) := by
  intro ops
  induction ops with
  | nil => intro s hi _; exact hi
  | cons op rest ih =>
    intro s hi hg
    simp only [goodOps, Bool.and_eq_true] at hg
    exact ih (applyOp xt s op) (inv_applyOp xt s op hi hg.1) hg.2

/-- C5 counterexample: after `addJob`, `updateJobStatus` to `queued`,
and a second `addJob` of the same `(board, job_id)` — all operations the
claim quantifies over — the composite key `b:1` is a member of both the
`queued` and the `discovered` status sets, so it is not in exactly one
status index set. -/
theorem c5_counterexample : ¬ statusConsistent (runOps c5xt emptyStore c5ops) := by
  intro h
  have hjob : aget (runOps c5xt emptyStore c5ops).jobs ("b", "1") =
      some (mkFullJob 2 c5xt c5inp) := by decide
  obtain ⟨_, hnot⟩ := h "b" "1" _ hjob
  exact hnot "queued" (by decide) (by decide)

/-- C5 (amended): the status-index consistency invariant holds after any
trace of the six operations replayed from the empty store, provided
`addJob` is only invoked on a `(board, job_id)` not already present (the
re-add is the counterexample), job ids are colon-free, and
`updateJobStatus` receives statuses of the TS six-value enum: every
job's composite key is then in exactly one status index set, the one
named by its hash status. -/
theorem c5_status_index_consistency_amended (xt : Classifier) (ops : List Op)
    (hg : goodOps xt emptyStore ops = true) :
    statusConsistent (runOps xt emptyStore ops) :=
  inv_statusConsistent _ (inv_runOps xt ops emptyStore inv_emptyStore hg)

/-- C5 witness: the spec's own scenario — add, claim via `createRun`
(job moves to `queued`), complete via `updateRun success` (job moves to
`applied`) — replayed from empty, is a good trace and ends consistent. -/
theorem c5_status_index_consistency_amended_witness :
    goodOps c5xt emptyStore
      [.addJob 0 c5inp,
       .createRun 1 { run_id := "r1", job_id := "1", board := "b", variant_id := "v" }
         none,
       .updateRun 2 "r1" { status := "success" }] = true ∧
    statusConsistent (runOps c5xt emptyStore
      [.addJob 0 c5inp,
       .createRun 1 { run_id := "r1", job_id := "1", board := "b", variant_id := "v" }
         none,
       .updateRun 2 "r1" { status := "success" }]) := by
  constructor
  · decide
  · exact c5_status_index_consistency_amended c5xt _ (by decide)

/-! `removeBoard` cascade lemmas. -/
theorem removeBoardStep_frame (s : Store) (B : String) (acc : Store) (j : String) :
    (removeBoardStep s B acc j).runs = acc.runs ∧
    (removeBoardStep s B acc j).locks = acc.locks ∧
    (removeBoardStep s B acc j).boards = acc.boards ∧
    (removeBoardStep s B acc j).boardsIdx = acc.boardsIdx ∧
    (removeBoardStep s B acc j).boardJobsIdx = acc.boardJobsIdx := by
  cases h : aget s.jobs (B, j) <;> simp [removeBoardStep, h]

theorem foldl_removeBoardStep_frame (s : Store) (B : String) :
    ∀ (ids : List String) (acc : Store),
      (List.foldl (removeBoardStep s B) acc ids).runs = acc.runs ∧
      (List.foldl (removeBoardStep s B) acc ids).locks = acc.locks ∧
      (List.foldl (removeBoardStep s B) acc ids).boards = acc.boards ∧
      (List.foldl (removeBoardStep s B) acc ids).boardsIdx = acc.boardsIdx ∧
      (List.foldl (removeBoardStep s B) acc ids).boardJobsIdx = acc.boardJobsIdx := by
  intro ids
  induction ids with
  | nil => intro acc; exact ⟨rfl, rfl, rfl, rfl, rfl⟩
  | cons j0 rest ih =>
    intro acc
    obtain ⟨h1, h2, h3, h4, h5⟩ := ih (removeBoardStep s B acc j0)
    obtain ⟨g1, g2, g3, g4, g5⟩ := removeBoardStep_frame s B acc j0
    exact ⟨h1.trans g1, h2.trans g2, h3.trans g3, h4.trans g4, h5.trans g5⟩

theorem removeBoardStep_jobs (s : Store) (B : String) (acc : Store) (j : String) :
    (removeBoardStep s B acc j).jobs = adel acc.jobs (B, j) := by
  cases h : aget s.jobs (B, j) <;> simp [removeBoardStep, h]

theorem foldl_jobs_mono (s : Store) (B : String) :
    ∀ (ids : List String) (acc : Store) (key : String × String),
      aget (List.foldl (removeBoardStep s B) acc ids).jobs key = aget acc.jobs key ∨
      aget (List.foldl (removeBoardStep s B) acc ids).jobs key = none := by
  intro ids
  induction ids with
  | nil => intro acc key; exact Or.inl rfl
  | cons j0 rest ih =>
    intro acc key
    have hstep : aget (removeBoardStep s B acc j0).jobs key = aget acc.jobs key ∨
        aget (removeBoardStep s B acc j0).jobs key = none := by
      rw [removeBoardStep_jobs]
      by_cases hk : key = (B, j0)
      · right
        rw [hk]
        exact aget_adel_self _ _
      · left
        exact aget_adel_ne _ _ _ hk
    rcases ih (removeBoardStep s B acc j0) key with h | h
    · rcases hstep with g | g
      · exact Or.inl (h.trans g)
      · exact Or.inr (h.trans g)
    · exact Or.inr h

theorem foldl_jobs_none (s : Store) (B : String) (ids : List String) (acc : Store)
    (key : String × String) (h : aget acc.jobs key = none) :
    aget (List.foldl (removeBoardStep s B) acc ids).jobs key = none := by
  rcases foldl_jobs_mono s B ids acc key with h2 | h2
  · exact h2.trans h
  · exact h2

theorem foldl_jobs_del (s : Store) (B : String) :
    ∀ (ids : List String) (acc : Store) (j : String), j ∈ ids →
      aget (List.foldl (removeBoardStep s B) acc ids).jobs (B, j) = none := by
  intro ids
  induction ids with
  | nil => intro acc j hm; cases hm
  | cons j0 rest ih =>
    intro acc j hm
    rcases List.mem_cons.1 hm with rfl | hm2
    · show aget (List.foldl (removeBoardStep s B)
        (removeBoardStep s B acc j) rest).jobs (B, j) = none
      apply foldl_jobs_none
      rw [removeBoardStep_jobs]
      exact aget_adel_self _ _
    · exact ih (removeBoardStep s B acc j0) j hm2

theorem removeBoardStep_statusIdx_mono (s : Store) (B : String) (acc : Store)
    (j st x : String)
    (hx : x ∈ sidxGet (removeBoardStep s B acc j).statusIdx st) :
    x ∈ sidxGet acc.statusIdx st := by
  cases h : aget s.jobs (B, j) with
  | none =>
    rw [show (removeBoardStep s B acc j).statusIdx = acc.statusIdx from by
      simp [removeBoardStep, h]] at hx
    exact hx
  | some d =>
    by_cases hst : d.status ≠ ""
    · rw [show (removeBoardStep s B acc j).statusIdx =
          sidxRem acc.statusIdx d.status (ckey B j) from by
        simp [removeBoardStep, h, hst]] at hx
      exact ((mem_sidxRem _ _ _ _ _).1 hx).1
    · rw [show (removeBoardStep s B acc j).statusIdx = acc.statusIdx from by
        simp [removeBoardStep, h, hst]] at hx
      exact hx

theorem foldl_statusIdx_mono (s : Store) (B : String) :
    ∀ (ids : List String) (acc : Store) (st x : String),
      x ∈ sidxGet (List.foldl (removeBoardStep s B) acc ids).statusIdx st →
      x ∈ sidxGet acc.statusIdx st := by
  intro ids
  induction ids with
  | nil => intro acc st x hx; exact hx
  | cons j0 rest ih =>
    intro acc st x hx
    exact removeBoardStep_statusIdx_mono s B acc j0 st x
      (ih (removeBoardStep s B acc j0) st x hx)

theorem foldl_statusIdx_del (s : Store) (B : String) :
    ∀ (ids : List String) (acc : Store) (j : String) (d : JobHash), j ∈ ids →
      aget s.jobs (B, j) = some d → d.status ≠ "" →
      ckey B j ∉ sidxGet (List.foldl (removeBoardStep s B) acc ids).statusIdx
        d.status := by
  intro ids
  induction ids with
  | nil => intro acc j d hm; cases hm
  | cons j0 rest ih =>
    intro acc j d hm hd hst
    rcases List.mem_cons.1 hm with rfl | hm2
    · intro hmem
      have h2 := foldl_statusIdx_mono s B rest (removeBoardStep s B acc j) _ _ hmem
      rw [show (removeBoardStep s B acc j).statusIdx =
          sidxRem acc.statusIdx d.status (ckey B j) from by
        simp [removeBoardStep, hd, hst]] at h2
      exact ((mem_sidxRem _ _ _ _ _).1 h2).2 rfl rfl
    · exact ih (removeBoardStep s B acc j0) j d hm2 hd hst

theorem foldl_sidxRem_mono (ck : String) :
    ∀ (tags : List String) (m : List (String × List String)) (tg x : String),
      x ∈ sidxGet (tags.foldl (fun a tg2 => sidxRem a tg2 ck) m) tg →
      x ∈ sidxGet m tg := by
  intro tags
  induction tags with
  | nil => intro m tg x hx; exact hx
  | cons t0 rest ih =>
    intro m tg x hx
    exact ((mem_sidxRem _ _ _ _ _).1 (ih (sidxRem m t0 ck) tg x hx)).1

theorem foldl_sidxRem_del (ck : String) :
    ∀ (tags : List String) (m : List (String × List String)) (tg : String),
      tg ∈ tags →
      ck ∉ sidxGet (tags.foldl (fun a tg2 => sidxRem a tg2 ck) m) tg := by
  intro tags
  induction tags with
  | nil => intro m tg hm; cases hm
  | cons t0 rest ih =>
    intro m tg hm
    rcases List.mem_cons.1 hm with rfl | hm2
    · intro hmem
      have h2 := foldl_sidxRem_mono ck rest (sidxRem m tg ck) tg ck hmem
      exact ((mem_sidxRem _ _ _ _ _).1 h2).2 rfl rfl
    · exact ih (sidxRem m t0 ck) tg hm2

theorem removeBoardStep_tagIdx_mono (s : Store) (B : String) (acc : Store)
    (j tg x : String)
    (hx : x ∈ sidxGet (removeBoardStep s B acc j).tagIdx tg) :
    x ∈ sidxGet acc.tagIdx tg := by
  cases h : aget s.jobs (B, j) with
  | none =>
    rw [show (removeBoardStep s B acc j).tagIdx = acc.tagIdx from by
      simp [removeBoardStep, h]] at hx
    exact hx
  | some d =>
    by_cases htags : d.tags ≠ []
    · rw [show (removeBoardStep s B acc j).tagIdx =
          d.tags.foldl (fun a tg2 => sidxRem a tg2 (ckey B j)) acc.tagIdx from by
        simp [removeBoardStep, h, htags]] at hx
      exact foldl_sidxRem_mono _ _ _ _ _ hx
    · rw [show (removeBoardStep s B acc j).tagIdx = acc.tagIdx from by
        simp [removeBoardStep, h, htags]] at hx
      exact hx

theorem foldl_tagIdx_mono (s : Store) (B : String) :
    ∀ (ids : List String) (acc : Store) (tg x : String),
      x ∈ sidxGet (List.foldl (removeBoardStep s B) acc ids).tagIdx tg →
      x ∈ sidxGet acc.tagIdx tg := by
  intro ids
  induction ids with
  | nil => intro acc tg x hx; exact hx
  | cons j0 rest ih =>
    intro acc tg x hx
    exact removeBoardStep_tagIdx_mono s B acc j0 tg x
      (ih (removeBoardStep s B acc j0) tg x hx)

theorem foldl_tagIdx_del (s : Store) (B : String) :
    ∀ (ids : List String) (acc : Store) (j : String) (d : JobHash) (tg : String),
      j ∈ ids → aget s.jobs (B, j) = some d → tg ∈ d.tags →
      ckey B j ∉ sidxGet (List.foldl (removeBoardStep s B) acc ids).tagIdx tg := by
  intro ids
  induction ids with
  | nil => intro acc j d tg hm; cases hm
  | cons j0 rest ih =>
    intro acc j d tg hm hd htg
    rcases List.mem_cons.1 hm with rfl | hm2
    · intro hmem
      have h2 := foldl_tagIdx_mono s B rest (removeBoardStep s B acc j) _ _ hmem
      rw [show (removeBoardStep s B acc j).tagIdx =
          d.tags.foldl (fun a tg2 => sidxRem a tg2 (ckey B j)) acc.tagIdx from by
        simp [removeBoardStep, hd, List.ne_nil_of_mem htg]] at h2
      exact foldl_sidxRem_del _ _ _ _ htg h2
    · exact ih (removeBoardStep s B acc j0) j d tg hm2 hd htg

theorem norm_some_ne (B : String) (h : B ≠ "") : norm (some B) = some B := by
  unfold norm
  split
  · rename_i heq
    injection heq with heq2
    exact absurd heq2 h
  · rfl

/-- C7 (amended): `removeBoard` returns not-found when the board hash is
absent; otherwise, on an index-consistent store it deletes the board
hash, its job index set, its boards-index membership and every one of
its jobs' hashes, clears every composite key of the board from all
status and tag index sets, and empties `listJobs` for the board — while
the jobs' runs and the apply-lock keys are left untouched (the cascade
does not extend to them). -/
theorem c7_removeBoard_cascade_amended (s : Store) (B : String) (hwf : WF s) :
    ((aget s.boards B).isNone = true → removeBoard s B = (s, false)) ∧
    ((aget s.boards B).isSome = true →
      (removeBoard s B).2 = true ∧
      aget (removeBoard s B).1.boards B = none ∧
      sidxGet (removeBoard s B).1.boardJobsIdx B = [] ∧
      B ∉ (removeBoard s B).1.boardsIdx ∧
      (∀ j, aget (removeBoard s B).1.jobs (B, j) = none) ∧
      (∀ st j, colonFree j = true →
        ckey B j ∉ sidxGet (removeBoard s B).1.statusIdx st) ∧
      (∀ tg j, colonFree j = true →
        ckey B j ∉ sidxGet (removeBoard s B).1.tagIdx tg) ∧
      (B ≠ "" →
        listJobs (removeBoard s B).1
          { board := some B, status := none, tag := none } = []) ∧
      (removeBoard s B).1.runs = s.runs ∧
      (removeBoard s B).1.locks = s.locks) := by
  obtain ⟨hk, hsound, htags, hbidx⟩ := hwf
  constructor
  · intro habs
    simp [removeBoard, habs]
  · intro hsome
    have hnabs : ¬ (aget s.boards B).isNone = true := by
      cases hb : aget s.boards B
      · rw [hb] at hsome
        exact absurd hsome (by simp)
      · simp [hb]
    have heq : removeBoard s B =
        (let s1 := List.foldl (removeBoardStep s B) s (sidxGet s.boardJobsIdx B)
         ({ s1 with boardJobsIdx := adel s1.boardJobsIdx B,
                    boards := adel s1.boards B,
                    boardsIdx := srem s1.boardsIdx B }, true)) := by
      unfold removeBoard
      rw [if_neg hnabs]
    rw [heq]
    simp only []
    obtain ⟨hruns, hlocks, hboards, hbidx2, hbji⟩ :=
      foldl_removeBoardStep_frame s B (sidxGet s.boardJobsIdx B) s
    refine ⟨trivial, ?_, ?_, ?_, ?_, ?_, ?_, ?_, ?_, ?_⟩
    · exact aget_adel_self _ _
    · simp [sidxGet, aget_adel_self]
    · intro hmem
      exact ((mem_srem _ _ _).1 hmem).2 rfl
    · intro j
      by_cases hjob : (aget s.jobs (B, j)).isSome = true
      · obtain ⟨d, hd⟩ := Option.isSome_iff_exists.1 hjob
        exact foldl_jobs_del s B _ s j (hbidx B j d hd)
      · apply foldl_jobs_none
        cases hd : aget s.jobs (B, j)
        · rfl
        · rw [hd] at hjob
          exact absurd (by simp) hjob
    · intro st j hcf hmem
      have hold := foldl_statusIdx_mono s B _ s st (ckey B j) hmem
      obtain ⟨b', j', h', hc, hg, hst'⟩ := hsound st (ckey B j) hold
      obtain ⟨hcf', hne'⟩ := hk b' j' h' hg
      obtain ⟨hb, hj⟩ := ckey_inj hcf' hcf hc.symm
      rw [hb, hj] at hg
      have hin := hbidx B j h' hg
      have hdel := foldl_statusIdx_del s B _ s j h' hin hg hne'
      rw [hst'] at hdel
      exact hdel hmem
    · intro tg j hcf hmem
      have hold := foldl_tagIdx_mono s B _ s tg (ckey B j) hmem
      obtain ⟨b', j', h', hc, hg, htg'⟩ := htags tg (ckey B j) hold
      obtain ⟨hcf', _⟩ := hk b' j' h' hg
      obtain ⟨hb, hj⟩ := ckey_inj hcf' hcf hc.symm
      rw [hb, hj] at hg
      have hin := hbidx B j h' hg
      exact foldl_tagIdx_del s B _ s j h' tg hin hg htg' hmem
    · intro hBne
      have hcks : sidxGet (adel (List.foldl (removeBoardStep s B) s
          (sidxGet s.boardJobsIdx B)).boardJobsIdx B) B = [] := by
        simp [sidxGet, aget_adel_self]
      simp only [listJobs, norm_some_ne B hBne]
      rw [show norm none = none from rfl]
      simp only [hcks, List.map_nil]
      rfl
    · exact hruns
    · exact hlocks

/-- C7 counterexample: a board with a job, a run and a live apply lock,
built through the public operations; `removeBoard` succeeds but the run
hash and the lock key survive, so the claimed cascade to runs and
apply-lock keys does not hold of the code. -/
theorem c7_counterexample :
    (removeBoard c7cs2 "b").2 = true ∧
    (aget (removeBoard c7cs2 "b").1.runs "r1").isSome = true ∧
    (aget (removeBoard c7cs2 "b").1.locks "b:1").isSome = true ∧
    aget (removeBoard c7cs2 "b").1.boards "b" = none := by
  refine ⟨by decide, by decide, by decide, by decide⟩

theorem aget_singleton {K V : Type} [DecidableEq K] (k0 : K) (v : V) (k : K) :
    aget [(k0, v)] k = if k0 = k then some v else none := by
  by_cases h : k0 = k <;> simp [aget, h]

theorem c7wStore_wf : WF c7wStore := by
  refine ⟨?_, ?_, ?_, ?_⟩
  · intro b j h hg
    rw [show c7wStore.jobs = [((("b" : String), ("1" : String)), c7wJob)] from rfl,
      aget_singleton] at hg
    by_cases hbj : ((("b" : String), ("1" : String)) = (b, j))
    · rw [if_pos hbj] at hg
      cases hg
      injection hbj with h1 h2
      subst h2
      exact ⟨by decide, by decide⟩
    · rw [if_neg hbj] at hg
      cases hg
  · intro st ck hck
    rw [show c7wStore.statusIdx = [(("discovered" : String), ["b:1"])] from rfl] at hck
    rw [show sidxGet [(("discovered" : String), ["b:1"])] st =
        if ("discovered" : String) = st then ["b:1"] else [] from by
      rw [sidxGet, aget_singleton]
      by_cases h : ("discovered" : String) = st <;> simp [h]] at hck
    by_cases hst : (("discovered" : String) = st)
    · rw [if_pos hst] at hck
      have hck2 := List.mem_singleton.1 hck
      subst hck2
      exact ⟨"b", "1", c7wJob, by decide, by decide, hst⟩
    · rw [if_neg hst] at hck
      cases hck
  · intro tg ck hck
    rw [show c7wStore.tagIdx = [(("quant" : String), ["b:1"])] from rfl] at hck
    rw [show sidxGet [(("quant" : String), ["b:1"])] tg =
        if ("quant" : String) = tg then ["b:1"] else [] from by
      rw [sidxGet, aget_singleton]
      by_cases h : ("quant" : String) = tg <;> simp [h]] at hck
    by_cases htg : (("quant" : String) = tg)
    · rw [if_pos htg] at hck
      have hck2 := List.mem_singleton.1 hck
      subst hck2
      refine ⟨"b", "1", c7wJob, by decide, by decide, ?_⟩
      rw [← htg]
      decide
    · rw [if_neg htg] at hck
      cases hck
  · intro b j h hg
    rw [show c7wStore.jobs = [((("b" : String), ("1" : String)), c7wJob)] from rfl,
      aget_singleton] at hg
    by_cases hbj : ((("b" : String), ("1" : String)) = (b, j))
    · injection hbj with h1 h2
      subst h1
      subst h2
      decide
    · rw [if_neg hbj] at hg
      cases hg

/-- C7 witness: the amended cascade theorem applied to a concrete
consistent store holding one board with one job. -/
theorem c7_removeBoard_cascade_amended_witness :
    WF c7wStore ∧
    (removeBoard c7wStore "b").2 = true ∧
    aget (removeBoard c7wStore "b").1.boards "b" = none ∧
    (∀ j, aget (removeBoard c7wStore "b").1.jobs ("b", j) = none) ∧
    listJobs (removeBoard c7wStore "b").1
      { board := some "b", status := none, tag := none } = [] := by
  have hwf := c7wStore_wf
  have hmain := (c7_removeBoard_cascade_amended c7wStore "b" hwf).2 (by decide)
  exact ⟨hwf, hmain.1, hmain.2.1, hmain.2.2.2.2.1,
    hmain.2.2.2.2.2.2.2.1 (by decide)⟩

/-- C1 witness: a second claim at time 100 against the lock taken at
time 10 (expiry 310) is rejected with 409 and changes nothing. -/
theorem c1_createRun_mutual_exclusion_witness :
    createRun c1s0 10 c1rn none = (c1s1, .ok c1full) ∧
    createRun c1s1 100 c1rn2 none =
      (c1s1, .err 409 "Job already has an active application in progress") := by
  have hsucc : createRun c1s0 10 c1rn none = (c1s1, .ok c1full) := by decide
  refine ⟨hsucc, ?_⟩
  exact (c1_createRun_mutual_exclusion c1s0 10 c1rn none c1s1 c1full hsucc).2
    c1s1 100 c1rn2 none rfl rfl rfl (by decide)

/-- C2 witness: the three rejection outcomes at three concrete stores. -/
theorem c2_createRun_rejections_witness :
    createRun c2sA 10 c2rn none =
      (c2sA, .err 409 "Job already has an active application in progress") ∧
    ((createRun emptyStore 0 c2rn none).2 = .err 404 "Job not found" ∧
      aget (createRun emptyStore 0 c2rn none).1.locks (ckey "b" "1") = none) ∧
    ((createRun c2sB 0 c2rn none).2 =
      .err 400 ("Job is in 'applied' status - only discovered/queued jobs " ++
        "can be applied to") ∧
      aget (createRun c2sB 0 c2rn none).1.locks (ckey "b" "1") = none) := by
  refine ⟨?_, ?_, ?_⟩
  · exact (c2_createRun_rejections c2sA 10 c2rn none).1 (by decide)
  · have h := (c2_createRun_rejections emptyStore 0 c2rn none).2.1
      (by decide) (by decide)
    exact ⟨h.1, h.2.1⟩
  · have h2 := (c2_createRun_rejections c2sB 0 c2rn none).2.2 c2jobB
      (by decide) (by decide) (by decide)
    exact ⟨h2.1, h2.2.1⟩

/-- C3 witness: a `success` update at a concrete store moves the job to
`applied` and deletes the lock. -/
theorem c3_updateRun_side_effects_witness :
    aget c3s.runs "r1" = some c3run ∧
    c3run.run_id = "r1" ∧
    noCrash c3run { status := "success" } = true ∧
    aget c3s.jobs ("b", "1") = some c3jobh ∧
    (aget (updateRun c3s 5 "r1" { status := "success" }).1.jobs ("b", "1") =
      some { c3jobh with status := "applied", updated_at := 5 } ∧
     aget (updateRun c3s 5 "r1" { status := "success" }).1.locks (ckey "b" "1") =
      none) := by
  refine ⟨by decide, by decide, by decide, by decide, ?_⟩
  exact (c3_updateRun_side_effects c3s 5 "r1" { status := "success" } c3run c3jobh
    (by decide) (by decide) (by decide) (by decide)).1 rfl

/-- C4 witness: a successful claim of a discovered job at a concrete
store. -/
theorem c4_createRun_success_postcondition_witness :
    lockLive c4s (ckey "b" "1") 7 = false ∧
    getJob c4s "b" "1" = some c4jobh ∧
    applicableStatus c4jobh.status = true ∧
    (createRun c4s 7 c4rn none).2 = .ok c4full ∧
    getJob (createRun c4s 7 c4rn none).1 "b" "1" =
      some { c4jobh with status := "queued", updated_at := 7 } := by
  have h := c4_createRun_success_postcondition c4s 7 c4rn none c4jobh
    (by decide) (by decide) (by decide)
  exact ⟨by decide, by decide, by decide, h.1, h.2.2.2.2.1 rfl⟩

/-- C9 witness: the amended statement at a concrete store — a pending
run updated to `submitted` stores exactly that status. -/
theorem c9_run_status_machine_amended_witness :
    aget c9ws.runs "r1" = some c9wrun ∧
    noCrash c9wrun { status := "submitted" } = true ∧
    (updateRun c9ws 3 "r1" { status := "submitted" }).2 =
      .ok (updatedHash 3 c9wrun { status := "submitted" }) ∧
    (updatedHash 3 c9wrun { status := "submitted" }).status = "submitted" := by
  have h := c9_run_status_machine_amended.2 c9ws 3 "r1" { status := "submitted" }
    c9wrun (by decide) (by decide)
  exact ⟨by decide, by decide, h.1, h.2⟩

/-- C10 witness: an unknown user id and a tagless user both yield the
empty list. -/
theorem c10_listJobsForUser_empty_witness :
    getUser emptyStore "nobody" = none ∧
    listJobsForUser emptyStore "nobody" none none = [] ∧
    getUser c10s "alice" = some c10alice ∧
    c10alice.tags = [] ∧
    listJobsForUser c10s "alice" none none = [] := by
  have h := c10_listJobsForUser_empty emptyStore "nobody" none none
  have h2 := c10_listJobsForUser_empty c10s "alice" none none
  exact ⟨by decide, h.1 (by decide), by decide, by decide,
    h2.2 c10alice (by decide) (by decide)⟩

/-- C8 witness: bulk add over an existing `applied` job with a different
title leaves the stored record untouched and inserts only the new id. -/
theorem c8_addJobsBulk_skips_existing_witness :
    (aget c8s.jobs ("b", "1")).isSome = true ∧
    aget (addJobsBulk c8s 5 c8xt c8input).1.jobs ("b", "1") = some c8jobh ∧
    aget c8s.jobs ("b", "2") = none ∧
    (∃ jh, jh ∈ (addJobsBulk c8s 5 c8xt c8input).2 ∧
      jh.board = "b" ∧ jh.job_id = "2") := by
  have h := c8_addJobsBulk_skips_existing c8s 5 c8xt c8input
  refine ⟨by decide, ?_, by decide, ?_⟩
  · rw [h.1 "b" "1" (by decide)]
    decide
  · exact h.2.2 { job_id := "2", board := "b", title := "N2" } (by decide) (by decide)

end Crawler
